import Mathlib

/-! ICC relay supervisor: a shallow embedding.

Definitions follow the Go sources (`detect.go`, `tty.go`, `pipe.go`, `prompt.go`).
Effects are made explicit: every call that reads the outside world (clock,
file system, tmux pane, git, the claude subprocess) takes its answer from an
observation record supplied by the caller, in the order the code asks.
-/

namespace Icc

/-! ## Go primitives -/

/-- Two's-complement wrap of a mathematical integer into the range of a 64-bit Go `int`. -/
def wrapInt64 (x : Int) : Int :=
  (x + 9223372036854775808) % 18446744073709551616 - 9223372036854775808

/-- Substring test `strings.Contains(s, sub)`: `sub` occurs contiguously in `s`. -/
def Contains (s sub : String) : Prop :=
  sub.data <:+: s.data

instance (s sub : String) : Decidable (Contains s sub) := by
  unfold Contains
  infer_instance

/-- Predicate `unicode.IsSpace`, the white space that `strings.TrimSpace` removes. -/
def isSpace (c : Char) : Bool :=
  c.toNat = 0x09 || c.toNat = 0x0A || c.toNat = 0x0B || c.toNat = 0x0C || c.toNat = 0x0D ||
  c.toNat = 0x20 || c.toNat = 0x85 || c.toNat = 0xA0 || c.toNat = 0x1680 ||
  (0x2000 ≤ c.toNat && c.toNat ≤ 0x200A) || c.toNat = 0x2028 || c.toNat = 0x2029 ||
  c.toNat = 0x202F || c.toNat = 0x205F || c.toNat = 0x3000

/-- Function `strings.TrimSpace`: leading and trailing white space removed. -/
def TrimSpace (s : String) : String :=
  String.mk ((s.data.dropWhile isSpace).reverse.dropWhile isSpace).reverse

/-- Go `len(s)`: the number of bytes of the UTF-8 text `s`. -/
def len (s : String) : Int := s.utf8ByteSize

/-! ## main.go -/

/-- Runtime configuration, `type Config struct` of main.go. -/
structure Config where
  Task : String
  Model : String
  PermissionMode : String
  SessionName : String
  PipeMode : Bool
  MaxSessions : Int
  WarnTokens : Int
  CriticalTokens : Int
  SessionTimeout : Int

/-- Loop condition of both relay loops: `cfg.MaxSessions == 0 || i <= cfg.MaxSessions`. -/
def loopCond (cfg : Config) (i : Nat) : Prop :=
  cfg.MaxSessions = 0 ∨ (i : Int) ≤ cfg.MaxSessions

instance (cfg : Config) (i : Nat) : Decidable (loopCond cfg i) := by
  unfold loopCond
  infer_instance

/-- Guard before the cooldown: `cfg.MaxSessions > 0 && i >= cfg.MaxSessions`. -/
def reachedMax (cfg : Config) (i : Nat) : Prop :=
  cfg.MaxSessions > 0 ∧ (i : Int) ≥ cfg.MaxSessions

instance (cfg : Config) (i : Nat) : Decidable (reachedMax cfg i) := by
  unfold reachedMax
  infer_instance

/-- Outcome of running a relay loop on a finite supply of observations: `finished` tells
whether the loop was left (the finish banner is printed) or the observations ran out
while a session was still awaited; `state` holds the variables at that point. -/
structure Run (σ : Type) where
  finished : Bool
  state : σ

/-! ## prompt.go -/

/-- What `buildContinuationPrompt` reads from outside: `os.ReadFile` (`none` when it
fails) and the outputs of the two git commands (`none` when the command fails). -/
structure PromptEnv where
  readFile : String → Option String
  gitDiffStat : Option String
  gitStatusShort : Option String

/-- Constant `handoffFormat` of prompt.go: the five handoff questions. -/
def handoffFormat : String :=
  "## Q0: What is the current state of this project?\n" ++
  "(what is this project, what is the current goal, how far have we progressed.\n" ++
  "The next agent is a blank process with ZERO history — this section is its only orientation.)\n" ++
  "\n" ++
  "## Q1: What should the next agent do first?\n" ++
  "(Be specific: which file, which function, what exact change.\n" ++
  "NOT \"continue implementing X\" — that is useless without context.)\n" ++
  "\n" ++
  "## Q2: What will NOT work? What dead ends were discovered?\n" ++
  "(Every dead end you hide costs the next agent 10+ tool calls to rediscover.)\n" ++
  "\n" ++
  "## Q3: What non-obvious decisions were made and why?\n" ++
  "(If the next agent reads the code and thinks \"why not do it the other way?\" — answer here.)\n" ++
  "\n" ++
  "## Q4: What are you uncertain about?\n" ++
  "(Honest uncertainty is more valuable than false confidence.)"

/-- Constant `handoffRules` of prompt.go. -/
def handoffRules : String :=
  "- You are an AUTONOMOUS agent. NEVER ask the human for confirmation, clarification, or approval. NEVER pause to wait for input. Make decisions and execute.\n" ++
  "- DO NOT list completed work or modified files — the supervisor auto-injects git diff.\n" ++
  "- DO NOT restate the original task — the supervisor passes it separately.\n" ++
  "- DO NOT answer a question with \"None\" — if truly none, skip it entirely.\n" ++
  "- Q0 (project state) is MANDATORY — without it the next agent cannot orient itself."

/-- Function `renderSystemPrompt`: the `fmt.Sprintf` template with its three `%s` filled in. -/
def renderSystemPrompt (handoffPath : String) : String :=
  "[IMPORTANT SYSTEM INSTRUCTION — ICC RELAY PROTOCOL]\n" ++
  "\n" ++
  "You are one node in an autonomous state machine. When your context fills up, a supervisor will restart a fresh agent that inherits your state. Your job is to make progress on the task and, when warned about context limits, write a handoff file so the next agent can resume without loss.\n" ++
  "\n" ++
  "## Handoff Mechanism\n" ++
  "\n" ++
  "The environment variable ICC_HANDOFF_PATH is set to:\n" ++
  "  " ++
  handoffPath ++
  "\n" ++
  "\n" ++
  "When you receive a context warning (⚠ Context used...), you MUST:\n" ++
  "1. Finish your current immediate step\n" ++
  "2. Use the Write tool to create the handoff file at the EXACT path above\n" ++
  "3. The file signals the supervisor to start a new session — this is how the relay works\n" ++
  "\n" ++
  "## Handoff File Format\n" ++
  "\n" ++
  "The file MUST follow this structure:\n" ++
  "\n" ++
  "```markdown\n" ++
  handoffFormat ++
  "\n" ++
  "```\n" ++
  "\n" ++
  "## Critical Rules\n" ++
  "\n" ++
  handoffRules ++
  "\n" ++
  "- The handoff is a FILE written via the Write tool — NOT text output to the conversation."

/-- Function `pipeSystemPrompt`: the `fmt.Sprintf` template with its two `%s` filled in. -/
def pipeSystemPrompt : String :=
  "[IMPORTANT SYSTEM INSTRUCTION — ICC RELAY PROTOCOL]\n" ++
  "\n" ++
  "You are one node in an autonomous state machine. When your context fills up, a supervisor will restart a fresh agent that inherits your state.\n" ++
  "\n" ++
  "When you receive a context warning (⚠ Context used...), you MUST:\n" ++
  "1. Finish your current immediate step\n" ++
  "2. Output a HANDOFF as your final message following the format below\n" ++
  "\n" ++
  "HANDOFF FORMAT — answer each question concisely:\n" ++
  "\n" ++
  handoffFormat ++
  "\n" ++
  "\n" ++
  "RULES:\n" ++
  handoffRules

/-- The `fmt.Sprintf` call that ends `buildContinuationPrompt`: two `%d` (rendered in decimal)
and four `%s` (inserted verbatim), in the order of the template. -/
def continuationFormat (sessionNum prevNum : Int) (task gitState gitStatus handoff : String) : String :=
  "You are session " ++
  toString sessionNum ++
  " of an autonomous state machine. You are resuming from session " ++
  toString prevNum ++
  ".\n" ++
  "\n" ++
  "CRITICAL: You are AUTONOMOUS. Do NOT ask the human anything. Do NOT wait for confirmation. Read the handoff, understand the state, and EXECUTE immediately.\n" ++
  "\n" ++
  "## Original Task\n" ++
  task ++
  "\n" ++
  "\n" ++
  "## Auto-recovered State (from git)\n" ++
  "```\n" ++
  gitState ++
  "\n" ++
  gitStatus ++
  "\n" ++
  "```\n" ++
  "\n" ++
  "## Handoff from Previous Session\n" ++
  handoff ++
  "\n" ++
  "\n" ++
  "Read the handoff above carefully before doing anything.\n" ++
  "- Q0 gives you project orientation\n" ++
  "- Q1 tells you exactly where to start\n" ++
  "- Q2 tells you what NOT to try — respect these, they were learned the hard way\n" ++
  "- Q3 explains decisions that might look wrong but aren\x27t\n" ++
  "- Q4 flags risks you should verify early\n" ++
  "\n" ++
  "Now execute. Do not ask questions. Do not wait for approval. Start working."

/-- Function `runGit`: the trimmed command output, the empty string on failure. -/
def runGit (out : Option String) : String :=
  match out with
  | none => ""
  | some o => TrimSpace o

/-- Handoff resolution at the head of `buildContinuationPrompt`: the file contents when
`handoffSource` can be read as a file, `handoffSource` itself otherwise. -/
def resolveHandoff (env : PromptEnv) (handoffSource : String) : String :=
  match env.readFile handoffSource with
  | some data => data
  | none => handoffSource

/-- Function `buildContinuationPrompt(sessionNum, task, handoffSource)`; `sessionNum-1`
is computed on a 64-bit `int`. -/
def buildContinuationPrompt (env : PromptEnv) (sessionNum : Int) (task handoffSource : String) :
    String :=
  let handoff := resolveHandoff env handoffSource
  let gitState := runGit env.gitDiffStat
  let gitState := if gitState = "" then "(no git history)" else gitState
  let gitStatus := runGit env.gitStatusShort
  continuationFormat sessionNum (wrapInt64 (sessionNum - 1)) task gitState gitStatus handoff

/-! ## detect.go -/

/-- Syntax of the regular expressions the repository compiles with `regexp.MustCompile`
(RE2 syntax): a character class, a greedy repetition, a concatenation, and the `$` of a
pattern without the multi-line flag, which matches at the end of the text only. -/
inductive Regex where
  | cls (p : Char → Bool)
  | star (r : Regex)
  | seq (r₁ r₂ : Regex)
  | endText

/-- Number of nodes of a regular expression. -/
def Regex.size : Regex → Nat
  | Regex.cls _ => 1
  | Regex.star r => r.size + 1
  | Regex.seq r₁ r₂ => r₁.size + r₂.size + 1
  | Regex.endText => 1

/-- Backtracking matcher: the list of what can remain of the input after a match of the
expression at its head. Each call spends one unit of fuel; a repetition repeats its body
only on matches that consumed input. -/
def Regex.rests : Nat → Regex → List Char → List (List Char)
  | 0, _, _ => []
  | _ + 1, Regex.cls _, [] => []
  | _ + 1, Regex.cls p, c :: cs => if p c = true then [cs] else []
  | f + 1, Regex.star r, s =>
    s :: ((Regex.rests f r s).filter fun t => t.length < s.length).flatMap
      (Regex.rests f (Regex.star r))
  | f + 1, Regex.seq r₁ r₂, s => (Regex.rests f r₁ s).flatMap (Regex.rests f r₂)
  | _ + 1, Regex.endText, [] => [[]]
  | _ + 1, Regex.endText, _ :: _ => []

/-- Method `MatchString` of a compiled pattern: the expression matches at some position
of the text, read as a sequence of runes. The fuel given for a start position covers
every path of the matcher. -/
def Regex.MatchString (re : Regex) (s : String) : Bool :=
  s.data.tails.any fun t => !(Regex.rests ((t.length + 1) * re.size + 1) re t).isEmpty

/-- Perl class `\s` of RE2: tab, newline, form feed, carriage return, space. -/
def perlSpace (c : Char) : Bool :=
  c = '\t' || c = '\n' || c.toNat = 0x0C || c = '\r' || c = ' '

/-- Pattern `shellPromptRe = regexp.MustCompile("[%$]\\s*$")` of detect.go. -/
def shellPromptRe : Regex :=
  Regex.seq (Regex.cls fun c => c = '%' || c = '$')
    (Regex.seq (Regex.star (Regex.cls perlSpace)) Regex.endText)

/-- The text with all its trailing characters of class `\s` removed. -/
def stripTrailingSpace (s : String) : List Char :=
  (s.data.reverse.dropWhile perlSpace).reverse

/-- Observations of one iteration of the poll loop of `waitForSignal`, in source order:
the two `fileExists(handoffPath)` answers (the second is asked only after the first
succeeded), the two `isShellPrompt(pane)` answers (same), and the reading of
`time.Now()` used in the deadline comparison (nanoseconds). -/
structure PollObs where
  fileFirst : Bool
  fileAgain : Bool
  idleFirst : Bool
  idleAgain : Bool
  now : Int
deriving DecidableEq, Repr

/-- One pass through the body of the `for` loop of `waitForSignal`:
`some r` when the body executes `return r`, `none` when it reaches the final
`time.Sleep` and the loop goes round again. -/
def pollOnce (deadline : Int) (o : PollObs) : Option Int :=
  if o.fileFirst = true ∧ o.fileAgain = true then some 0
  else if o.idleFirst = true ∧ o.idleAgain = true then some 1
  else if o.now > deadline then some 2
  else none

/-- Model of `waitForSignal(handoffPath, pane, timeout)`: `start` is the reading of
`time.Now()` from which the deadline `time.Now().Add(timeout)` is computed, the list
holds the observations of the successive loop iterations. `none` means the loop has not
returned within the observations supplied. -/
def waitForSignal (start timeout : Int) : List PollObs → Option Int
  | [] => none
  | o :: rest =>
    match pollOnce (start + timeout) o with
    | some r => some r
    | none => waitForSignal start timeout rest

/-- Conversion `time.Duration(cfg.SessionTimeout) * time.Second` of runTTY (nanoseconds, 64-bit). -/
def sessionTimeoutDuration (sessionTimeout : Int) : Int :=
  wrapInt64 (sessionTimeout * 1000000000)

/-- The handoff condition of a poll is confirmed: both existence checks succeeded. -/
def PollObs.handoffPresent (o : PollObs) : Bool := o.fileFirst && o.fileAgain

/-- The idle condition of a poll is confirmed: both prompt checks succeeded. -/
def PollObs.idleDetected (o : PollObs) : Bool := o.idleFirst && o.idleAgain

/-- The deadline has elapsed at the poll: `time.Now().After(deadline)`. -/
def PollObs.timeoutElapsed (deadline : Int) (o : PollObs) : Bool := decide (o.now > deadline)

/-! ## tty.go -/

/-- What one pass of the session loop of `runTTY` reads from outside, in source order:
the value of `randomHex(3)`, whether `os.CreateTemp` succeeded, the answer of
`waitForClaudeReady`, the environment of the prompt builder, the clock reading and the
polls of `waitForSignal`, and the answer of the `fileExists(handoffPath)` asked inside
the `switch` (cases 1 and 2). -/
structure TTYObs where
  hex : String
  spFileOk : Bool
  claudeReady : Bool
  env : PromptEnv
  start : Int
  polls : List PollObs
  fileAfter : Bool

/-- Variables of `runTTY` that live across sessions, with the trace of the session
headers printed (`started`) and of the prompts passed to `sendPrompt` (`prompts`). -/
structure TTYState where
  prevHandoffPath : String
  lastSession : Nat
  started : List Nat
  prompts : List String

/-- How one pass through a loop body ends: it reaches the end of the body (`next`,
the loop increments `i`), it executes `break` (`brk`), or the observations ran out
while `waitForSignal` was still polling (`waiting`). -/
inductive Flow where
  | next
  | brk
  | waiting
deriving DecidableEq, Repr

/-- Handoff path of a session: `fmt.Sprintf("/tmp/icc-handoff-%s.md", randomHex(3))`. -/
def handoffPathOf (o : TTYObs) : String :=
  "/tmp/icc-handoff-" ++ o.hex ++ ".md"

/-- Prompt selection of `runTTY`. -/
def ttyPrompt (cfg : Config) (i : Nat) (prevHandoffPath : String) (env : PromptEnv) : String :=
  if i = 1 ∨ prevHandoffPath = "" then cfg.Task
  else buildContinuationPrompt env i cfg.Task prevHandoffPath

/-- The part of a `switch` case of `runTTY` that follows the discovery of a handoff:
record it as predecessor, then `break` when max-sessions is reached. -/
def ttyRecordHandoff (cfg : Config) (i : Nat) (st : TTYState) (handoffPath : String) :
    Flow × TTYState :=
  let st := { st with prevHandoffPath := handoffPath }
  if reachedMax cfg i then (Flow.brk, st) else (Flow.next, st)

/-- The `switch signal` of `runTTY` (no default case). -/
def ttySwitch (cfg : Config) (i : Nat) (st : TTYState) (o : TTYObs) (signal : Int) :
    Flow × TTYState :=
  if signal = 0 then ttyRecordHandoff cfg i st (handoffPathOf o)
  else if signal = 1 then
    if o.fileAfter = true then ttyRecordHandoff cfg i st (handoffPathOf o)
    else (Flow.brk, st)
  else if signal = 2 then
    if o.fileAfter = true then ttyRecordHandoff cfg i st (handoffPathOf o)
    else (Flow.brk, st)
  else (Flow.next, st)

/-- Body of the session loop of `runTTY` for session `i`. -/
def ttySession (cfg : Config) (i : Nat) (st : TTYState) (o : TTYObs) : Flow × TTYState :=
  let st := { st with lastSession := i, started := st.started ++ [i] }
  if o.spFileOk = false then (Flow.brk, st)
  else if o.claudeReady = false then (Flow.brk, st)
  else
    let st := { st with prompts := st.prompts ++ [ttyPrompt cfg i st.prevHandoffPath o.env] }
    match waitForSignal o.start (sessionTimeoutDuration cfg.SessionTimeout) o.polls with
    | none => (Flow.waiting, st)
    | some signal => ttySwitch cfg i st o signal

/-- The loop `for i := ...; cfg.MaxSessions == 0 || i <= cfg.MaxSessions; i++` of `runTTY`,
entered at index `i`; one element of the list is consumed per session. The index, a Go
`int`, is a natural number here: exact for the first 2^63 - 1 sessions of a run. -/
def sessionLoop (cfg : Config) : Nat → TTYState → List TTYObs → Run TTYState
  | i, st, [] => if loopCond cfg i then ⟨false, st⟩ else ⟨true, st⟩
  | i, st, o :: rest =>
    if loopCond cfg i then
      match ttySession cfg i st o with
      | (Flow.next, st1) => sessionLoop cfg (i + 1) st1 rest
      | (Flow.brk, st1) => ⟨true, st1⟩
      | (Flow.waiting, st1) => ⟨false, st1⟩
    else ⟨true, st⟩

/-- Function `runTTY`: the loop entered at `i = 1` with `prevHandoffPath = ""` and
`lastSession = 0`; the finish banner reports `state.lastSession`. -/
def runTTY (cfg : Config) (world : List TTYObs) : Run TTYState :=
  sessionLoop cfg 1 ⟨"", 0, [], []⟩ world

/-- The detector's answer for a session, when it was invoked and has returned. -/
def detectorReturned (cfg : Config) (o : TTYObs) (signal : Int) : Prop :=
  o.spFileOk = true ∧ o.claudeReady = true ∧
    waitForSignal o.start (sessionTimeoutDuration cfg.SessionTimeout) o.polls = some signal

/-- A handoff is available for a session: the detector returned HandoffProduced (0), or
it returned EndedWithoutHandoff (1) or TimedOut (2) and the re-check found the file. -/
def handoffAvailable (cfg : Config) (o : TTYObs) : Prop :=
  detectorReturned cfg o 0 ∨
    ((detectorReturned cfg o 1 ∨ detectorReturned cfg o 2) ∧ o.fileAfter = true)

/-- The session came to an end: its set-up failed or the detector returned. -/
def sessionEnded (cfg : Config) (o : TTYObs) : Prop :=
  o.spFileOk = false ∨ o.claudeReady = false ∨
    ∃ signal, waitForSignal o.start (sessionTimeoutDuration cfg.SessionTimeout) o.polls =
      some signal

/-- Session `i + 1` is started after session `i`: the body of pass `i` reaches its end
and the loop condition holds at `i + 1`. -/
def startsNext (cfg : Config) (i : Nat) (st : TTYState) (o : TTYObs) : Prop :=
  (ttySession cfg i st o).1 = Flow.next ∧ loopCond cfg (i + 1)

/-! ## pipe.go -/

/-- Statistics of one streaming session, `type sessionStats struct`. -/
structure sessionStats where
  toolUseCount : Int
  cost : Float
  inputTokens : Int
  outputTokens : Int

/-- What one pass of the loop of `runPipe` reads from outside: the environment of the
prompt builder and the pair returned by `runPipeSession(cfg.Model, prompt)`. -/
structure PipeObs where
  env : PromptEnv
  result : String
  stats : sessionStats

/-- The closing messages `runPipe` can print before `break`. -/
inductive PipeMsg where
  | taskComplete
  | emptyResult
deriving DecidableEq, Repr

/-- Variables of `runPipe` that live across sessions, with the trace of the session
headers printed, of the prompts given to `runPipeSession`, and of closing messages. -/
structure PipeState where
  totalCost : Float
  totalInput : Int
  totalOutput : Int
  sessionCount : Nat
  context : String
  started : List Nat
  prompts : List String
  messages : List PipeMsg

/-- A dynamic Go value held in an `interface{}`: what `encoding/json` decodes into
(`nil`, `bool`, `float64`, `string`, `[]interface{}`, `map[string]interface{}`) and the
`int` of a Go literal. A map is listed as its key/value pairs, keys distinct. -/
inductive Value where
  | nil
  | bool (b : Bool)
  | float64 (v : Float)
  | int (n : Int)
  | string (s : String)
  | slice (xs : List Value)
  | map (kvs : List (String × Value))

/-- Map index expression `m[key]`: the value stored under the key, `nil` when absent. -/
def mapIndex (m : List (String × Value)) (key : String) : Value :=
  match m.lookup key with
  | some v => v
  | none => Value.nil

/-- Go conversion `int(v)` of a `float64` to the 64-bit `int`: truncation toward zero for
a value that fits, that is from -2^63 up to but excluding 2^63; for NaN and for a value
outside that range the result is the least int, -9223372036854775808, as the conversion
instruction of amd64 gives it (the language leaves that case to the implementation). -/
def intOfFloat64 (v : Float) : Int :=
  if v.isNaN = true ∨ v ≥ 9223372036854775808 ∨ v < -9223372036854775808 then
    -9223372036854775808
  else if v < 0 then -((Float.toUInt64 (-v)).toNat : Int)
  else ((Float.toUInt64 v).toNat : Int)

/-- The zero value `sessionStats{}`. -/
def zeroStats : sessionStats := ⟨0, 0, 0, 0⟩

/-- How the claude subprocess of a streaming session behaved: `cmd.StdoutPipe()` failed,
`cmd.Start()` failed, or it ran, wrote these lines to its standard output and exited.
The lines are the output cut at each newline, without the newline. These are the runs on
which `runPipeSession` returns: on a subprocess that never closes its output or never
exits `scanner.Scan()` or `cmd.Wait()` blocks for ever, and no value stands for it. -/
inductive PipeProc where
  | pipeError
  | startError
  | started (lines : List String)

/-- The size `1024*1024` given twice to `scanner.Buffer`: the length of the buffer and the
maximum token size. -/
def scannerBufferSize : Nat := 1024 * 1024

/-- Function `dropCR` of `bufio`, applied by `bufio.ScanLines` to each line: one trailing
carriage return is removed. -/
def dropCR (line : String) : String :=
  match line.data.reverse with
  | '\r' :: rest => String.mk rest.reverse
  | _ => line

/-- The lines `scanner.Scan()` yields, as `scanner.Text()`, on the given output. A line is
yielded when it and its newline fit the buffer of `scannerBufferSize` bytes, that is when
it has fewer bytes than that; at the first line that does not fit `Scan` sets
`ErrTooLong` and returns false, so the loop ends there, and as `scanner.Err()` is never
consulted the lines after it are never read. -/
def scannerLines (output : List String) : List String :=
  (output.takeWhile fun line => decide (line.utf8ByteSize < scannerBufferSize)).map dropCR

/-- Body of the `for scanner.Scan()` loop of `runPipeSession` for one line, acting on the
pair (`result`, `stats`); `unmarshal` stands for `json.Unmarshal` into a
`map[string]interface{}` (`none` when it returns an error). Printing is not modelled. -/
def scanLine (unmarshal : String → Option (List (String × Value)))
    (acc : String × sessionStats) (line : String) : String × sessionStats :=
  if line = "" then acc
  else
    match unmarshal line with
    | none => acc
    | some raw =>
      let eventType := match mapIndex raw "type" with
        | Value.string t => t
        | _ => ""
      if eventType = "assistant" then acc
      else if eventType = "tool_use" then
        (acc.1, { acc.2 with toolUseCount := wrapInt64 (acc.2.toolUseCount + 1) })
      else if eventType = "result" then
        let result := match mapIndex raw "result" with
          | Value.string r => r
          | _ => acc.1
        let stats := match mapIndex raw "cost_usd" with
          | Value.float64 c => { acc.2 with cost := c }
          | _ => acc.2
        let stats := match mapIndex raw "usage" with
          | Value.map usage =>
            let stats := match mapIndex usage "input_tokens" with
              | Value.float64 v => { stats with inputTokens := intOfFloat64 v }
              | _ => stats
            match mapIndex usage "output_tokens" with
            | Value.float64 v => { stats with outputTokens := intOfFloat64 v }
            | _ => stats
          | _ => stats
        (result, stats)
      else acc

/-- Function `runPipeSession`: the pair (`result`, `stats`) it returns. The loop
`for scanner.Scan()` runs its body on the lines the scanner yields. -/
def runPipeSession (unmarshal : String → Option (List (String × Value))) :
    PipeProc → String × sessionStats
  | PipeProc.pipeError => ("", zeroStats)
  | PipeProc.startError => ("", zeroStats)
  | PipeProc.started lines => (scannerLines lines).foldl (scanLine unmarshal) ("", zeroStats)

/-- The observation of a pass of `runPipe` in which `runPipeSession` returned `ret`. -/
def pipeObsOf (env : PromptEnv) (ret : String × sessionStats) : PipeObs :=
  ⟨env, ret.1, ret.2⟩

/-- A 64-bit `int` holds the value without wrapping. -/
def inInt64 (x : Int) : Prop :=
  -9223372036854775808 ≤ x ∧ x < 9223372036854775808

instance (x : Int) : Decidable (inInt64 x) := by
  unfold inInt64
  infer_instance

/-- Prompt selection of `runPipe`. -/
def pipePrompt (cfg : Config) (i : Nat) (context : String) (env : PromptEnv) : String :=
  if i = 1 then cfg.Task ++ "\n\n" ++ pipeSystemPrompt
  else buildContinuationPrompt env i cfg.Task context ++ "\n\n" ++ pipeSystemPrompt

/-- Body of the loop of `runPipe` for session `i`; the token totals are 64-bit `int`s,
the cost total a `float64`. -/
def pipeSession (cfg : Config) (i : Nat) (st : PipeState) (o : PipeObs) : Flow × PipeState :=
  let st := { st with sessionCount := i, started := st.started ++ [i] }
  let st := { st with prompts := st.prompts ++ [pipePrompt cfg i st.context o.env] }
  let st := { st with
    totalCost := st.totalCost + o.stats.cost
    totalInput := wrapInt64 (st.totalInput + o.stats.inputTokens)
    totalOutput := wrapInt64 (st.totalOutput + o.stats.outputTokens) }
  let st := { st with context := o.result }
  if o.stats.toolUseCount = 0 ∧ len o.result < 200 then
    (Flow.brk, { st with messages := st.messages ++ [PipeMsg.taskComplete] })
  else if o.result = "" then
    (Flow.brk, { st with messages := st.messages ++ [PipeMsg.emptyResult] })
  else (Flow.next, st)

/-- The loop `for i := 1; cfg.MaxSessions == 0 || i <= cfg.MaxSessions; i++` of `runPipe`,
entered at index `i`; one element of the list is consumed per session. -/
def pipeLoop (cfg : Config) : Nat → PipeState → List PipeObs → Run PipeState
  | i, st, [] => if loopCond cfg i then ⟨false, st⟩ else ⟨true, st⟩
  | i, st, o :: rest =>
    if loopCond cfg i then
      match pipeSession cfg i st o with
      | (Flow.next, st1) => pipeLoop cfg (i + 1) st1 rest
      | (_, st1) => ⟨true, st1⟩
    else ⟨true, st⟩

/-- Function `runPipe`: the loop entered at `i = 1` with zero totals and empty context;
the finish banner reports `state.sessionCount` and the three totals. -/
def runPipe (cfg : Config) (world : List PipeObs) : Run PipeState :=
  pipeLoop cfg 1 ⟨0, 0, 0, 0, "", [], [], []⟩ world

/-! ## detect.go: polling, pane capture, termination -/

/-- Observations of one iteration of the loop of `pollUntil`: the answer of `checkFn()`
and the reading of `time.Now()` compared with the deadline (read only after a false
answer). -/
structure CheckObs where
  check : Bool
  now : Int
deriving DecidableEq, Repr

/-- The `for` loop of `pollUntil`: the value returned together with the number of calls
of `checkFn` made; `none` when the observations run out before the loop returns. -/
def pollLoop (deadline : Int) : List CheckObs → Option (Bool × Nat)
  | [] => none
  | o :: rest =>
    if o.check = true then some (true, 1)
    else if o.now > deadline then some (false, 1)
    else
      match pollLoop deadline rest with
      | some (b, n) => some (b, n + 1)
      | none => none

/-- Function `pollUntil(checkFn, timeout, interval)`: `start` is the reading of
`time.Now()` from which the deadline is computed. -/
def pollUntil (start timeout : Int) (steps : List CheckObs) : Option (Bool × Nat) :=
  pollLoop (start + timeout) steps

/-- What one call of `pollUntil` reads from outside. -/
structure PollUntilObs where
  start : Int
  steps : List CheckObs

/-- A command sent to the pane: `tmuxSendKeys(pane, keys...)` (`tmux send-keys -t pane
keys...`) or `tmuxSendLiteral(pane, text)` (`tmux send-keys -t pane -l text`). -/
inductive PaneCmd where
  | keys (ks : List String)
  | literal (text : String)
deriving DecidableEq, Repr

/-- Function `gracefulExit(pane, timeout)`: the commands sent to the pane, in order, and
whether the function returned within the observations supplied. The first record feeds
the poll that follows the exit sequence, the second the poll of the fallback; the checks
are the answers of `isShellPrompt(pane)`. -/
def gracefulExit (timeout : Int) (first second : PollUntilObs) : Run (List PaneCmd) :=
  let sent := [PaneCmd.keys ["Escape"], PaneCmd.literal "/exit", PaneCmd.keys ["Enter"]]
  match pollUntil first.start timeout first.steps with
  | none => ⟨false, sent⟩
  | some (true, _) => ⟨true, sent⟩
  | some (false, _) =>
    let sent := sent ++ [PaneCmd.keys ["C-c"], PaneCmd.keys ["Escape"],
      PaneCmd.literal "/exit", PaneCmd.keys ["Enter"]]
    match pollUntil second.start 15000000000 second.steps with
    | none => ⟨false, sent⟩
    | some _ => ⟨true, sent⟩

/-- Every literal "/exit" of a command trace stands in a send of its own that is directly
followed by a send of the single key Enter, and no send of keys carries "/exit". -/
def exitSentBeforeEnter : List PaneCmd → Prop
  | [] => True
  | PaneCmd.literal t :: rest =>
    t = "/exit" ∧ rest.head? = some (PaneCmd.keys ["Enter"]) ∧ exitSentBeforeEnter rest
  | PaneCmd.keys ks :: rest => "/exit" ∉ ks ∧ exitSentBeforeEnter rest

/-- Result of `os.Stat(path)`: file information, or an error. -/
inductive StatResult where
  | found
  | failed
deriving DecidableEq, Repr

/-- Function `fileExists` of tty.go: `err == nil` for the error of `os.Stat`. -/
def fileExists (stat : StatResult) : Bool :=
  match stat with
  | StatResult.found => true
  | StatResult.failed => false

/-- Function `strings.Split(s, "\n")` on the runes of `s`. -/
def splitNewline : List Char → List (List Char)
  | [] => [[]]
  | c :: cs =>
    if c = '\n' then [] :: splitNewline cs
    else
      match splitNewline cs with
      | l :: ls => (c :: l) :: ls
      | [] => [[c]]

/-- Function `capturePaneBottom(pane, n)`: `out` is the output of `tmux capture-pane`
(`none` when the command fails); the count `n` is 3 or 6 at the call sites. -/
def capturePaneBottom (out : Option String) (n : Nat) : String :=
  match out with
  | none => ""
  | some o =>
    let lines := (splitNewline o.data).map String.mk
    let nonEmpty := lines.filter fun l => decide (TrimSpace l ≠ "")
    if nonEmpty.length = 0 then ""
    else "\n".intercalate (nonEmpty.drop (nonEmpty.length - n))

/-- Function `isShellPrompt(pane)`, given the outcome of the pane capture. -/
def isShellPrompt (out : Option String) : Bool :=
  shellPromptRe.MatchString (capturePaneBottom out 3)

/-- What one iteration of the poll loop of `waitForSignal` reads from outside, before the
checks interpret it: the results of the two `os.Stat` calls and of the two pane captures,
and the clock reading. -/
structure PollRaw where
  stat1 : StatResult
  stat2 : StatResult
  pane1 : Option String
  pane2 : Option String
  now : Int

/-- The answers the checks of `waitForSignal` give on the raw observations of a poll. -/
def PollRaw.observe (r : PollRaw) : PollObs :=
  ⟨fileExists r.stat1, fileExists r.stat2, isShellPrompt r.pane1, isShellPrompt r.pane2, r.now⟩

/-! ## install.go -/

/-- Constant `hookCmd`. -/
def hookCmd : String := "~/.claude/hooks/context-guard.sh"

/-- The element `hookEntry[0]` built at the head of `registerHooks`; its "timeout" is a
Go `int`. -/
def hookEntry0 : Value :=
  Value.map [("hooks", Value.slice [Value.map [("type", Value.string "command"),
    ("command", Value.string hookCmd), ("timeout", Value.int 10)]])]

/-- Inner loop body of `hasHookCommand`: `h` is a map whose "command" equals `cmd`
(the comparison `hm["command"] == cmd` holds for a string of that value only). -/
def commandIs (cmd : String) (h : Value) : Bool :=
  match h with
  | Value.map hm =>
    match mapIndex hm "command" with
    | Value.string c => decide (c = cmd)
    | _ => false
  | _ => false

/-- Outer loop body of `hasHookCommand`: `entry` is a map whose "hooks" is a slice holding
an element for which the inner loop returns true. -/
def entryHasCommand (cmd : String) (entry : Value) : Bool :=
  match entry with
  | Value.map e =>
    match mapIndex e "hooks" with
    | Value.slice innerHooks => innerHooks.any (commandIs cmd)
    | _ => false
  | _ => false

/-- Function `hasHookCommand(eventVal, cmd)`. -/
def hasHookCommand (eventVal : Value) (cmd : String) : Bool :=
  match eventVal with
  | Value.slice entries => entries.any (entryHasCommand cmd)
  | _ => false

/-- Map assignment `m[key] = v`: the value under an existing key is replaced, a new key
is added. -/
def mapSet : List (String × Value) → String → Value → List (String × Value)
  | [], key, v => [(key, v)]
  | (k, x) :: rest, key, v =>
    if k = key then (key, v) :: rest else (k, x) :: mapSet rest key v

mutual
/-- What `json.Unmarshal` into an `interface{}` gives back from the `json.MarshalIndent`
of a value: the same value with every `int` turned into the `float64` of that number. -/
def jsonRoundTrip : Value → Value
  | Value.nil => Value.nil
  | Value.bool b => Value.bool b
  | Value.float64 v => Value.float64 v
  | Value.int n => Value.float64 (Float.ofInt n)
  | Value.string s => Value.string s
  | Value.slice xs => Value.slice (roundTripList xs)
  | Value.map kvs => Value.map (roundTripFields kvs)
/-- The round trip of the elements of a slice. -/
def roundTripList : List Value → List Value
  | [] => []
  | x :: xs => jsonRoundTrip x :: roundTripList xs
/-- The round trip of the values of a map. -/
def roundTripFields : List (String × Value) → List (String × Value)
  | [] => []
  | (k, v) :: rest => (k, jsonRoundTrip v) :: roundTripFields rest
end

/-- State of the settings file as `registerHooks` finds it: `os.ReadFile` fails (no
file), the content is not a JSON object (`json.Unmarshal` fails), the content is `null`
(the map is set to nil), or the content is a JSON object, given as the map it decodes
to. -/
inductive SettingsFile where
  | unreadable
  | malformed
  | null
  | object (settings : List (String × Value))

/-- How a call of `registerHooks` ends: `os.Exit(1)`, a run-time panic, or a return with
the state of the settings file and whether the file was written. -/
inductive RegisterResult where
  | exited
  | panicked
  | done (file : SettingsFile) (written : Bool)

/-- The map `hooks` of `registerHooks`: `settings["hooks"]` when that is a map, a new
empty map when the field is absent or of another type. -/
def hooksOf (settings : List (String × Value)) : List (String × Value) :=
  match mapIndex settings "hooks" with
  | Value.map h => h
  | _ => []

/-- One pass of the loop over the two events in `registerHooks`: the `hooks` map after
the pass and whether the pass set `updated`. -/
def registerEvent (hooks : List (String × Value)) (event : String) :
    List (String × Value) × Bool :=
  if hasHookCommand (mapIndex hooks event) hookCmd = true then (hooks, false)
  else
    let existing := match mapIndex hooks event with
      | Value.slice xs => xs
      | _ => []
    (mapSet hooks event (Value.slice (existing ++ [hookEntry0])), true)

/-- The part of `registerHooks` that follows a successful read, on the decoded settings
(the empty map when there is no file); `file` is the state found, returned unchanged when
nothing is updated. The file written holds what the marshalled settings decode to. -/
def registerInto (file : SettingsFile) (settings : List (String × Value)) (writeOk : Bool) :
    RegisterResult :=
  let hooks := hooksOf settings
  let pre := registerEvent hooks "PreToolUse"
  let post := registerEvent pre.1 "PostToolUse"
  if (pre.2 || post.2) = false then RegisterResult.done file false
  else
    let settings := mapSet settings "hooks" (Value.map post.1)
    if writeOk = true then
      RegisterResult.done (SettingsFile.object (roundTripFields settings)) true
    else RegisterResult.exited

/-- Function `registerHooks(settingsPath)`; `writeOk` tells whether `os.WriteFile`
succeeds. With a `null` file the map is nil, both events are updated and the assignment
`settings["hooks"] = hooks` panics. -/
def registerHooks (file : SettingsFile) (writeOk : Bool) : RegisterResult :=
  match file with
  | SettingsFile.unreadable => registerInto file [] writeOk
  | SettingsFile.malformed => RegisterResult.exited
  | SettingsFile.null => RegisterResult.panicked
  | SettingsFile.object settings => registerInto file settings writeOk

/-! ## Prompt sequences, as the specification words them -/

/-- Prompts of the interactive sessions from index `i` on, as specified: the prompt of a
session is `buildContinuationPrompt(i, task, p)` with `p` the handoff path registered for
the session before it (`prev`). -/
def ttyContinuationPrompts (cfg : Config) : Nat → TTYObs → List TTYObs → List String
  | _, _, [] => []
  | i, prev, o :: rest =>
    buildContinuationPrompt o.env i cfg.Task (handoffPathOf prev) ::
      ttyContinuationPrompts cfg (i + 1) o rest

/-- Prompts of the interactive sessions 1, 2, ... as specified: the task text for
session 1, continuation prompts afterwards. -/
def ttyExpectedPrompts (cfg : Config) : List TTYObs → List String
  | [] => []
  | o :: rest => cfg.Task :: ttyContinuationPrompts cfg 2 o rest

/-- Prompts of the streaming sessions from index `i` on, as specified: the handoff source
of a session is the final result text of the session before it (`prev`). -/
def pipeContinuationPrompts (cfg : Config) : Nat → PipeObs → List PipeObs → List String
  | _, _, [] => []
  | i, prev, o :: rest =>
    (buildContinuationPrompt o.env i cfg.Task prev.result ++ "\n\n" ++ pipeSystemPrompt) ::
      pipeContinuationPrompts cfg (i + 1) o rest

/-- Prompts of the streaming sessions 1, 2, ... as specified. -/
def pipeExpectedPrompts (cfg : Config) : List PipeObs → List String
  | [] => []
  | o :: rest =>
    (cfg.Task ++ "\n\n" ++ pipeSystemPrompt) :: pipeContinuationPrompts cfg 2 o rest

/-! ## Stream events, as the specification words them -/

/-- The JSON object a line of the stream parses to, if it is a non-empty line that
`json.Unmarshal` accepts. -/
def decodeLine (unmarshal : String → Option (List (String × Value))) (line : String) :
    Option (List (String × Value)) :=
  if line = "" then none else unmarshal line

/-- The "type" of a decoded event: its string, or "" when the field is absent or not a
string. -/
def eventTypeOf (raw : List (String × Value)) : String :=
  match mapIndex raw "type" with
  | Value.string t => t
  | _ => ""

/-- The line parses as a JSON object whose "type" is "tool_use". -/
def isToolUseLine (unmarshal : String → Option (List (String × Value))) (line : String) :
    Bool :=
  match decodeLine unmarshal line with
  | some raw => decide (eventTypeOf raw = "tool_use")
  | none => false

/-- The "result" string carried by the line, when it parses as a "result" event that has
a string in that field. -/
def resultTextOf (unmarshal : String → Option (List (String × Value))) (line : String) :
    Option String :=
  match decodeLine unmarshal line with
  | some raw =>
    if eventTypeOf raw = "result" then
      match mapIndex raw "result" with
      | Value.string r => some r
      | _ => none
    else none
  | none => none

/-! ## The captured screen, as the specification words it -/

/-- The characters removed from the end of a line: space, tab, carriage return, form
feed. -/
def lineSpace (c : Char) : Bool :=
  c = ' ' || c = '\t' || c = '\r' || c.toNat = 0x0C

/-- A line with its trailing spaces, tabs, carriage returns and form feeds removed. -/
def stripTrailingLineSpace (l : String) : List Char :=
  (l.data.reverse.dropWhile lineSpace).reverse

/-- The last line of a captured text that is non-blank under `strings.TrimSpace`, if the
text has one. -/
def lastNonBlankLine (o : String) : Option String :=
  (((splitNewline o.data).map String.mk).filter fun l => decide (TrimSpace l ≠ "")).getLast?

/-- Example configuration: the defaults of `main` with the given max-sessions and
session-timeout. -/
def exampleConfig (maxSessions sessionTimeout : Int) : Config :=
  ⟨"Build a REST API", "", "bypassPermissions", "", false, maxSessions, 175000, 190000,
    sessionTimeout⟩

/-- Example environment of the prompt builder: no readable file, no git history. -/
def bareEnv : PromptEnv := ⟨fun _ => none, none, none⟩

/-- Example session: the agent exits, the idle prompt is confirmed, no handoff file. -/
def endedNoHandoff : TTYObs :=
  ⟨"a1b2c3", true, true, bareEnv, 0, [⟨false, false, true, true, 7000000000⟩], false⟩

/-- Example session: the handoff file is confirmed by the detector at the second poll. -/
def handoffWritten : TTYObs :=
  ⟨"0f0f0f", true, true, bareEnv, 0,
    [⟨false, false, false, false, 2000000000⟩, ⟨true, true, false, false, 6000000000⟩], true⟩

/-- Example session under a 60 s timeout: nothing is confirmed, the deadline passes, and
the file is found by the check that follows the forced exit. -/
def timedOutWithFile : TTYObs :=
  ⟨"c0ffee", true, true, bareEnv, 0,
    [⟨false, false, false, false, 2000000000⟩, ⟨false, false, false, false, 61000000000⟩], true⟩

/-- Example session: the handoff file is confirmed at the first poll. -/
def handoffAtFirstPoll : TTYObs :=
  ⟨"beef01", true, true, bareEnv, 0, [⟨true, true, false, false, 1⟩], true⟩

/-- Example streaming session that used a tool and returned a non-empty result. -/
def pipeWorked : PipeObs :=
  ⟨bareEnv, "## Q0: half of the endpoints are written", ⟨1, 0, 1200, 300⟩⟩

/-- Example streaming session that used no tool and returned a brief result. -/
def pipeBrief : PipeObs :=
  ⟨bareEnv, "All endpoints are implemented and the tests pass.", ⟨0, 0, 900, 12⟩⟩

/-- Example streaming session: no tool use and a result of 50 bytes. -/
def pipeFiftyBytes : PipeObs :=
  ⟨bareEnv, "01234567890123456789012345678901234567890123456789", ⟨0, 0, 900, 12⟩⟩

/-- Example streaming session that used a tool and reported 2^62 input tokens. -/
def pipeHugeUsage : PipeObs :=
  ⟨bareEnv, "## Q0: half of the endpoints are written", ⟨1, 0, 4611686018427387904, 300⟩⟩

/-- Example environment in which one path is a readable handoff file. -/
def fileEnv : PromptEnv :=
  ⟨fun path => if path = "/tmp/icc-test/handoff.md" then some "## Q0: file-based handoff content"
    else none, some " main.go | 4 ++--\n", some " M main.go\n"⟩

/-- Example session: at the first poll the agent is still working (no handoff file, no
shell prompt) and the clock has advanced by one nanosecond since the deadline was set. -/
def stillWorking : TTYObs :=
  ⟨"d00d1e", true, true, bareEnv, 1000, [⟨false, false, false, false, 1001⟩], false⟩

/-- Example decoding of three stream lines (a tool_use event, a result event, a second
result event without text); every other line is rejected. -/
def exampleUnmarshal (line : String) : Option (List (String × Value)) :=
  if line = "\x7b\"type\":\"tool_use\",\"tool_name\":\"Bash\"\x7d" then
    some [("type", Value.string "tool_use"), ("tool_name", Value.string "Bash")]
  else if line = "\x7b\"type\":\"result\",\"result\":\"## Q0: done\"\x7d" then
    some [("type", Value.string "result"), ("result", Value.string "## Q0: done")]
  else if line = "\x7b\"type\":\"result\",\"result\":null\x7d" then
    some [("type", Value.string "result"), ("result", Value.nil)]
  else none

/-- Example stream: two tool_use events, an empty line, a line that is not JSON, a result
event with text and one without. -/
def exampleStream : List String :=
  ["\x7b\"type\":\"tool_use\",\"tool_name\":\"Bash\"\x7d", "",
    "\x7b\"type\":\"tool_use\",\"tool_name\":\"Bash\"\x7d", "not json",
    "\x7b\"type\":\"result\",\"result\":\"## Q0: done\"\x7d",
    "\x7b\"type\":\"result\",\"result\":null\x7d"]

/-- A line of exactly 1048576 bytes, the smallest that does not fit the scanner. -/
def oversizedLine : String := String.mk (List.replicate 1048576 'x')

/-- Example stream: a line of 1048576 bytes, then a tool_use event and a result event
with text. -/
def cutStream : List String :=
  [oversizedLine, "\x7b\"type\":\"tool_use\",\"tool_name\":\"Bash\"\x7d",
    "\x7b\"type\":\"result\",\"result\":\"## Q0: done\"\x7d"]

/-- Example settings of the repository's test: one custom key, no hooks. -/
def customSettings : List (String × Value) :=
  [("customKey", Value.string "customValue")]

/-! ## Theorems -/

/-- The values `waitForSignal` returns are 0, 1 and 2. -/
theorem waitForSignal_range (start timeout : Int) (polls : List PollObs) (r : Int)
    (h : waitForSignal start timeout polls = some r) : r = 0 ∨ r = 1 ∨ r = 2 := by
  induction polls with
  | nil => simp [waitForSignal] at h
  | cons p ps ih =>
    simp only [waitForSignal] at h
    cases hp : pollOnce (start + timeout) p with
    | none => rw [hp] at h; exact ih h
    | some v =>
      rw [hp] at h
      simp only [Option.some.injEq] at h
      subst h
      simp only [pollOnce] at hp
      split_ifs at hp <;> simp_all

/-- C2 (counterexample): in a poll where no handoff is present, the pane is not idle and
the deadline has not elapsed, none of the three outcomes results; the loop polls again. -/
theorem pollOnce_no_outcome :
    pollOnce 10 ⟨false, false, false, false, 3⟩ = none ∧
    ¬ (pollOnce 10 ⟨false, false, false, false, 3⟩ = some 0 ∨
       pollOnce 10 ⟨false, false, false, false, 3⟩ = some 1 ∨
       pollOnce 10 ⟨false, false, false, false, 3⟩ = some 2) := by
  decide

/-- C2 (amended): the classification made by one poll of waitForSignal is ordered, and is
total on every combination but one: handoff-present gives 0 whatever the other two are,
idle-detected without handoff gives 1 even after the deadline, neither with the deadline
elapsed gives 2, and neither with the deadline not elapsed gives no outcome (the loop
continues); waitForSignal returns only 0, 1 or 2. -/
theorem pollOnce_classification (deadline : Int) (o : PollObs) :
    (o.handoffPresent = true → pollOnce deadline o = some 0) ∧
    (o.handoffPresent = false → o.idleDetected = true → pollOnce deadline o = some 1) ∧
    (o.handoffPresent = false → o.idleDetected = false → o.timeoutElapsed deadline = true →
      pollOnce deadline o = some 2) ∧
    (o.handoffPresent = false → o.idleDetected = false → o.timeoutElapsed deadline = false →
      pollOnce deadline o = none) ∧
    (pollOnce deadline o = some 2 →
      o.handoffPresent = false ∧ o.idleDetected = false ∧ o.timeoutElapsed deadline = true) ∧
    (∀ start timeout polls r, waitForSignal start timeout polls = some r →
      r = 0 ∨ r = 1 ∨ r = 2) := by
  obtain ⟨f1, f2, i1, i2, now⟩ := o
  refine ⟨?_, ?_, ?_, ?_, ?_, ?_⟩
  · intro h
    simp only [PollObs.handoffPresent, Bool.and_eq_true] at h
    simp [pollOnce, h.1, h.2]
  · intro h hi
    simp only [PollObs.handoffPresent, Bool.and_eq_false_iff] at h
    simp only [PollObs.idleDetected, Bool.and_eq_true] at hi
    have hn : ¬ (f1 = true ∧ f2 = true) := by
      rintro ⟨a, b⟩; rcases h with h | h <;> simp_all
    simp [pollOnce, hn, hi.1, hi.2]
  · intro h hi ht
    simp only [PollObs.handoffPresent, Bool.and_eq_false_iff] at h
    simp only [PollObs.idleDetected, Bool.and_eq_false_iff] at hi
    simp only [PollObs.timeoutElapsed, decide_eq_true_eq] at ht
    have hn : ¬ (f1 = true ∧ f2 = true) := by
      rintro ⟨a, b⟩; rcases h with h | h <;> simp_all
    have hm : ¬ (i1 = true ∧ i2 = true) := by
      rintro ⟨a, b⟩; rcases hi with hi | hi <;> simp_all
    simp [pollOnce, hn, hm, ht]
  · intro h hi ht
    simp only [PollObs.handoffPresent, Bool.and_eq_false_iff] at h
    simp only [PollObs.idleDetected, Bool.and_eq_false_iff] at hi
    simp only [PollObs.timeoutElapsed, decide_eq_false_iff_not] at ht
    have hn : ¬ (f1 = true ∧ f2 = true) := by
      rintro ⟨a, b⟩; rcases h with h | h <;> simp_all
    have hm : ¬ (i1 = true ∧ i2 = true) := by
      rintro ⟨a, b⟩; rcases hi with hi | hi <;> simp_all
    simp [pollOnce, hn, hm, ht]
  · intro h
    simp only [pollOnce] at h
    split_ifs at h with h1 h2 h3
    · simp at h
    · simp at h
    · refine ⟨?_, ?_, ?_⟩
      · simp only [PollObs.handoffPresent]
        cases f1 <;> cases f2 <;> simp_all
      · simp only [PollObs.idleDetected]
        cases i1 <;> cases i2 <;> simp_all
      · simpa [PollObs.timeoutElapsed] using h3
  · intro start timeout polls r h
    exact waitForSignal_range start timeout polls r h

/-- C3 (code at the failing input): with session-timeout 0 the deadline is the start
reading itself, so the first poll that confirms neither condition, taken one nanosecond
later, returns TimedOut (2); runTTY under the default configuration then takes its
timeout branch and, no handoff file being found, leaves the loop after session 1. -/
theorem waitForSignal_zero_timeout_times_out :
    waitForSignal 1000 (sessionTimeoutDuration 0) [⟨false, false, false, false, 1001⟩] = some 2 ∧
    (exampleConfig 0 0).SessionTimeout = 0 ∧
    (runTTY (exampleConfig 0 0) [stillWorking]).finished = true ∧
    (runTTY (exampleConfig 0 0) [stillWorking]).state.lastSession = 1 := by
  decide

/-- Flow and state of the `switch` when a handoff is recorded. -/
theorem ttyRecordHandoff_flow (cfg : Config) (i : Nat) (st : TTYState) (path : String) :
    (ttyRecordHandoff cfg i st path).1 = Flow.next ↔ ¬ reachedMax cfg i := by
  unfold ttyRecordHandoff
  by_cases h : reachedMax cfg i <;> simp [h]

/-- Every pass of the session loop of runTTY records its index as `lastSession`. -/
theorem ttySession_lastSession (cfg : Config) (i : Nat) (st : TTYState) (o : TTYObs) :
    (ttySession cfg i st o).2.lastSession = i := by
  unfold ttySession
  simp only
  split_ifs
  · rfl
  · rfl
  · split
    · rfl
    · rename_i signal _
      unfold ttySwitch ttyRecordHandoff
      split_ifs <;> rfl

/-- The bound test made after a handoff and the loop condition at `i + 1` together say
that max-sessions is 0 or exceeds `i`. -/
theorem continue_bound_iff (cfg : Config) (i : Nat) :
    (¬ reachedMax cfg i ∧ loopCond cfg (i + 1)) ↔
      (cfg.MaxSessions = 0 ∨ (i : Int) < cfg.MaxSessions) := by
  unfold reachedMax loopCond
  push_cast
  omega

/-- A session that has ended does not leave the loop body waiting. -/
theorem ttySession_not_waiting (cfg : Config) (i : Nat) (st : TTYState) (o : TTYObs)
    (hend : sessionEnded cfg o) : (ttySession cfg i st o).1 ≠ Flow.waiting := by
  intro hs
  unfold ttySession at hs
  simp only at hs
  cases hsp : o.spFileOk with
  | false => simp [hsp] at hs
  | true =>
    cases hcr : o.claudeReady with
    | false => simp [hsp, hcr] at hs
    | true =>
      rcases hend with h | h | ⟨sg, h⟩
      · simp [hsp] at h
      · simp [hcr] at h
      · simp only [hsp, hcr, h] at hs
        rcases waitForSignal_range _ _ _ _ h with h2 | h2 | h2 <;> subst h2 <;>
          simp [ttySwitch, ttyRecordHandoff] at hs <;> split_ifs at hs

/-- C1: in runTTY, session i+1 is started after session i exactly when a handoff is
available for session i (detector returned 0, or returned 1 or 2 and the re-check found
the file) and max-sessions is 0 or i < max-sessions; when session i has ended and
session i+1 is not started, the loop is left and the reported total is i. The three
scenarios: one session ending without handoff and file gives total 1; a handoff then an
end without handoff gives total 2; a timed-out session 1 whose file is found afterwards
is followed by session 2. -/
theorem runTTY_next_session_iff (cfg : Config) (i : Nat) (st : TTYState) (o : TTYObs)
    (rest : List TTYObs) (hloop : loopCond cfg i) :
    (startsNext cfg i st o ↔
      handoffAvailable cfg o ∧ (cfg.MaxSessions = 0 ∨ (i : Int) < cfg.MaxSessions)) ∧
    (startsNext cfg i st o →
      sessionLoop cfg i st (o :: rest) = sessionLoop cfg (i + 1) (ttySession cfg i st o).2 rest) ∧
    (sessionEnded cfg o → ¬ startsNext cfg i st o →
      (sessionLoop cfg i st (o :: rest)).finished = true ∧
      (sessionLoop cfg i st (o :: rest)).state.lastSession = i) ∧
    ((runTTY (exampleConfig 0 600) [endedNoHandoff]).finished = true ∧
      (runTTY (exampleConfig 0 600) [endedNoHandoff]).state.lastSession = 1 ∧
      (runTTY (exampleConfig 0 600) [endedNoHandoff]).state.started = [1]) ∧
    ((runTTY (exampleConfig 0 600) [handoffWritten, endedNoHandoff]).finished = true ∧
      (runTTY (exampleConfig 0 600) [handoffWritten, endedNoHandoff]).state.lastSession = 2 ∧
      (runTTY (exampleConfig 0 600) [handoffWritten, endedNoHandoff]).state.started = [1, 2]) ∧
    ((runTTY (exampleConfig 0 60) [timedOutWithFile, endedNoHandoff]).state.started = [1, 2] ∧
      waitForSignal timedOutWithFile.start (sessionTimeoutDuration 60) timedOutWithFile.polls
        = some 2) := by
  have key : startsNext cfg i st o ↔
      handoffAvailable cfg o ∧ (cfg.MaxSessions = 0 ∨ (i : Int) < cfg.MaxSessions) := by
    rw [← continue_bound_iff]
    unfold startsNext handoffAvailable detectorReturned ttySession
    simp only
    cases hsp : o.spFileOk <;> cases hcr : o.claudeReady <;> simp
    cases hw : waitForSignal o.start (sessionTimeoutDuration cfg.SessionTimeout) o.polls with
    | none => simp
    | some signal =>
      rcases waitForSignal_range _ _ _ _ hw with h | h | h <;> subst h <;>
        cases hf : o.fileAfter <;>
        simp [ttySwitch, ttyRecordHandoff_flow, hf]
  refine ⟨key, ?_, ?_, ?_, ?_, ?_⟩
  · intro h
    have h1 := h.1
    rw [sessionLoop.eq_2]
    simp only [hloop, if_true]
    cases hs : ttySession cfg i st o with
    | mk fl st1 =>
      rw [hs] at h1
      simp only at h1
      subst h1
      rfl
  · intro hend hn
    rw [sessionLoop.eq_2]
    simp only [hloop, if_true]
    have hl := ttySession_lastSession cfg i st o
    cases hs : ttySession cfg i st o with
    | mk fl st1 =>
      rw [hs] at hl
      simp only at hl
      cases fl with
      | next =>
        have hc : ¬ loopCond cfg (i + 1) := by
          intro hc
          exact hn ⟨by rw [hs], hc⟩
        simp only
        cases rest with
        | nil => rw [sessionLoop.eq_1]; simp [hc, hl]
        | cons o1 r1 => rw [sessionLoop.eq_2]; simp [hc, hl]
      | brk => simp [hl]
      | waiting =>
        exfalso
        exact ttySession_not_waiting cfg i st o hend (by rw [hs])
  · decide
  · decide
  · decide

/-- Every pass of the session loop of runTTY appends its index to the header trace. -/
theorem ttySession_started (cfg : Config) (i : Nat) (st : TTYState) (o : TTYObs) :
    (ttySession cfg i st o).2.started = st.started ++ [i] := by
  unfold ttySession
  simp only
  split_ifs
  · rfl
  · rfl
  · split
    · rfl
    · unfold ttySwitch ttyRecordHandoff
      split_ifs <;> rfl

/-- Every pass of the loop of runPipe records its index as the session count and appends
it to the header trace. -/
theorem pipeSession_trace (cfg : Config) (i : Nat) (st : PipeState) (o : PipeObs) :
    (pipeSession cfg i st o).2.sessionCount = i ∧
      (pipeSession cfg i st o).2.started = st.started ++ [i] := by
  unfold pipeSession
  simp only
  split_ifs <;> exact ⟨rfl, rfl⟩

/-- Loop invariant of runTTY under a positive max-sessions: the sessions started are
1, ..., lastSession and lastSession does not exceed max-sessions. -/
theorem sessionLoop_bound (cfg : Config) (hm : 0 < cfg.MaxSessions) (world : List TTYObs) :
    ∀ (i : Nat) (st : TTYState), st.started = List.range' 1 st.lastSession →
      st.lastSession + 1 = i → (st.lastSession : Int) ≤ cfg.MaxSessions →
      (sessionLoop cfg i st world).state.started =
          List.range' 1 (sessionLoop cfg i st world).state.lastSession ∧
        ((sessionLoop cfg i st world).state.lastSession : Int) ≤ cfg.MaxSessions := by
  induction world with
  | nil =>
    intro i st h1 _ h3
    rw [sessionLoop.eq_1]
    split_ifs <;> exact ⟨h1, h3⟩
  | cons o rest ih =>
    intro i st h1 h2 h3
    rw [sessionLoop.eq_2]
    split_ifs with hc
    · have hl := ttySession_lastSession cfg i st o
      have hs := ttySession_started cfg i st o
      have hi : (i : Int) ≤ cfg.MaxSessions := by
        unfold loopCond at hc
        omega
      have hr : (ttySession cfg i st o).2.started =
          List.range' 1 (ttySession cfg i st o).2.lastSession := by
        rw [hs, hl, h1, ← h2, List.range'_1_concat, Nat.add_comm 1]
      cases hq : ttySession cfg i st o with
      | mk fl st1 =>
        rw [hq] at hl hr
        simp only at hl hr
        cases fl with
        | next => exact ih (i + 1) st1 hr (by omega) (by omega)
        | brk => exact ⟨hr, by simp only; omega⟩
        | waiting => exact ⟨hr, by simp only; omega⟩
    · exact ⟨h1, h3⟩

/-- Loop invariant of runPipe under a positive max-sessions. -/
theorem pipeLoop_bound (cfg : Config) (hm : 0 < cfg.MaxSessions) (world : List PipeObs) :
    ∀ (i : Nat) (st : PipeState), st.started = List.range' 1 st.sessionCount →
      st.sessionCount + 1 = i → (st.sessionCount : Int) ≤ cfg.MaxSessions →
      (pipeLoop cfg i st world).state.started =
          List.range' 1 (pipeLoop cfg i st world).state.sessionCount ∧
        ((pipeLoop cfg i st world).state.sessionCount : Int) ≤ cfg.MaxSessions := by
  induction world with
  | nil =>
    intro i st h1 _ h3
    rw [pipeLoop.eq_1]
    split_ifs <;> exact ⟨h1, h3⟩
  | cons o rest ih =>
    intro i st h1 h2 h3
    rw [pipeLoop.eq_2]
    split_ifs with hc
    · obtain ⟨hl, hs⟩ := pipeSession_trace cfg i st o
      have hi : (i : Int) ≤ cfg.MaxSessions := by
        unfold loopCond at hc
        omega
      have hr : (pipeSession cfg i st o).2.started =
          List.range' 1 (pipeSession cfg i st o).2.sessionCount := by
        rw [hs, hl, h1, ← h2, List.range'_1_concat, Nat.add_comm 1]
      cases hq : pipeSession cfg i st o with
      | mk fl st1 =>
        rw [hq] at hl hr
        simp only at hl hr
        cases fl with
        | next => exact ih (i + 1) st1 hr (by omega) (by omega)
        | brk => exact ⟨hr, by simp only; omega⟩
        | waiting => exact ⟨hr, by simp only; omega⟩
    · exact ⟨h1, h3⟩

/-- Under a positive max-sessions the loop of runTTY is left once max-sessions sessions
have been observed to end. -/
theorem sessionLoop_finishes (cfg : Config) (hm : 0 < cfg.MaxSessions) (world : List TTYObs) :
    ∀ (i : Nat) (st : TTYState), cfg.MaxSessions < (i : Int) + world.length →
      (∀ o ∈ world, sessionEnded cfg o) → (sessionLoop cfg i st world).finished = true := by
  induction world with
  | nil =>
    intro i st h _
    rw [sessionLoop.eq_1]
    have hc : ¬ loopCond cfg i := by
      unfold loopCond
      simp only [List.length_nil] at h
      omega
    simp [hc]
  | cons o rest ih =>
    intro i st h hall
    rw [sessionLoop.eq_2]
    split_ifs with hc
    · have hw := ttySession_not_waiting cfg i st o (hall o (List.mem_cons_self o rest))
      cases hq : ttySession cfg i st o with
      | mk fl st1 =>
        rw [hq] at hw
        cases fl with
        | next =>
          refine ih (i + 1) st1 ?_ (fun o1 h1 => hall o1 (List.mem_cons_of_mem o h1))
          simp only [List.length_cons] at h
          push_cast at h ⊢
          omega
        | brk => rfl
        | waiting => exact absurd rfl hw
    · rfl

/-- Under a positive max-sessions the loop of runPipe is left once max-sessions sessions
have been observed. -/
theorem pipeLoop_finishes (cfg : Config) (hm : 0 < cfg.MaxSessions) (world : List PipeObs) :
    ∀ (i : Nat) (st : PipeState), cfg.MaxSessions < (i : Int) + world.length →
      (pipeLoop cfg i st world).finished = true := by
  induction world with
  | nil =>
    intro i st h
    rw [pipeLoop.eq_1]
    have hc : ¬ loopCond cfg i := by
      unfold loopCond
      simp only [List.length_nil] at h
      omega
    simp [hc]
  | cons o rest ih =>
    intro i st h
    rw [pipeLoop.eq_2]
    split_ifs with hc
    · cases hq : pipeSession cfg i st o with
      | mk fl st1 =>
        cases fl with
        | next =>
          refine ih (i + 1) st1 ?_
          simp only [List.length_cons] at h
          push_cast at h ⊢
          omega
        | brk => rfl
        | waiting => rfl
    · rfl

/-- With max-sessions 0, k handoffs followed by an end without handoff make the loop of
runTTY, entered at i, stop at session i + k. -/
theorem sessionLoop_unbounded (cfg : Config) (h0 : cfg.MaxSessions = 0) (k : Nat) :
    ∀ (i : Nat) (st : TTYState),
      (sessionLoop cfg i st (List.replicate k handoffAtFirstPoll ++ [endedNoHandoff])).finished
          = true ∧
        (sessionLoop cfg i st
          (List.replicate k handoffAtFirstPoll ++ [endedNoHandoff])).state.lastSession = i + k := by
  have hc : ∀ j, loopCond cfg j := fun j => Or.inl h0
  have hr : ∀ j, ¬ reachedMax cfg j := by
    intro j h
    unfold reachedMax at h
    omega
  induction k with
  | zero =>
    intro i st
    simp only [List.replicate_zero, List.nil_append]
    rw [sessionLoop.eq_2]
    simp [hc, ttySession, endedNoHandoff, waitForSignal, pollOnce, ttySwitch]
  | succ k ih =>
    intro i st
    simp only [List.replicate_succ, List.cons_append]
    rw [sessionLoop.eq_2]
    have hs : ttySession cfg i st handoffAtFirstPoll =
        (Flow.next, (ttySession cfg i st handoffAtFirstPoll).2) := by
      simp [ttySession, handoffAtFirstPoll, waitForSignal, pollOnce, ttySwitch,
        ttyRecordHandoff, hr]
    rw [hs]
    simp only [hc, if_true]
    have := ih (i + 1) (ttySession cfg i st handoffAtFirstPoll).2
    rw [this.2]
    exact ⟨this.1, by omega⟩

/-- With max-sessions 0, k working sessions followed by a brief one without tool use make
the loop of runPipe, entered at i, stop at session i + k. -/
theorem pipeLoop_unbounded (cfg : Config) (h0 : cfg.MaxSessions = 0) (k : Nat) :
    ∀ (i : Nat) (st : PipeState),
      (pipeLoop cfg i st (List.replicate k pipeWorked ++ [pipeBrief])).finished = true ∧
        (pipeLoop cfg i st (List.replicate k pipeWorked ++ [pipeBrief])).state.sessionCount
          = i + k := by
  have hc : ∀ j, loopCond cfg j := fun j => Or.inl h0
  have hb : len pipeBrief.result < 200 := by decide
  have hw : pipeWorked.stats.toolUseCount ≠ 0 := by decide
  have hw2 : pipeWorked.result ≠ "" := by decide
  induction k with
  | zero =>
    intro i st
    simp only [List.replicate_zero, List.nil_append]
    rw [pipeLoop.eq_2]
    have hs : pipeSession cfg i st pipeBrief = (Flow.brk, (pipeSession cfg i st pipeBrief).2) := by
      have ht : pipeBrief.stats.toolUseCount = 0 := rfl
      simp [pipeSession, hb, ht]
    rw [hs, if_pos (hc i)]
    exact ⟨rfl, (pipeSession_trace cfg i st pipeBrief).1⟩
  | succ k ih =>
    intro i st
    simp only [List.replicate_succ, List.cons_append]
    rw [pipeLoop.eq_2]
    have hs : pipeSession cfg i st pipeWorked =
        (Flow.next, (pipeSession cfg i st pipeWorked).2) := by
      simp [pipeSession, hw, hw2]
    rw [hs]
    simp only [hc, if_true]
    have := ih (i + 1) (pipeSession cfg i st pipeWorked).2
    rw [this.2]
    exact ⟨this.1, by omega⟩

/-- C9: for every max-sessions value m > 0 and every sequence of session observations,
runTTY and runPipe start sessions 1, 2, ..., k, report k, and k <= m; the loops are left
after at most m sessions that end. With m = 0 every session count k + 1 is reached by
some sequence of outcomes, so the loop bound does not cap the count. -/
theorem max_sessions_bound (cfg : Config) (hm : 0 < cfg.MaxSessions) (tw : List TTYObs)
    (pw : List PipeObs) :
    ((runTTY cfg tw).state.started = List.range' 1 (runTTY cfg tw).state.lastSession ∧
      ((runTTY cfg tw).state.lastSession : Int) ≤ cfg.MaxSessions) ∧
    ((runPipe cfg pw).state.started = List.range' 1 (runPipe cfg pw).state.sessionCount ∧
      ((runPipe cfg pw).state.sessionCount : Int) ≤ cfg.MaxSessions) ∧
    (cfg.MaxSessions ≤ tw.length → (∀ o ∈ tw, sessionEnded cfg o) →
      (runTTY cfg tw).finished = true) ∧
    (cfg.MaxSessions ≤ pw.length → (runPipe cfg pw).finished = true) ∧
    (∀ cfg0 : Config, cfg0.MaxSessions = 0 → ∀ k : Nat,
      (∃ world, (runTTY cfg0 world).finished = true ∧
        (runTTY cfg0 world).state.lastSession = k + 1) ∧
      (∃ world, (runPipe cfg0 world).finished = true ∧
        (runPipe cfg0 world).state.sessionCount = k + 1)) := by
  refine ⟨?_, ?_, ?_, ?_, ?_⟩
  · exact sessionLoop_bound cfg hm tw 1 ⟨"", 0, [], []⟩ rfl rfl (by simp only; omega)
  · exact pipeLoop_bound cfg hm pw 1 ⟨0, 0, 0, 0, "", [], [], []⟩ rfl rfl (by simp only; omega)
  · intro hlen hall
    exact sessionLoop_finishes cfg hm tw 1 ⟨"", 0, [], []⟩ (by push_cast; omega) hall
  · intro hlen
    exact pipeLoop_finishes cfg hm pw 1 ⟨0, 0, 0, 0, "", [], [], []⟩ (by push_cast; omega)
  · intro cfg0 h0 k
    refine ⟨⟨List.replicate k handoffAtFirstPoll ++ [endedNoHandoff], ?_⟩,
      ⟨List.replicate k pipeWorked ++ [pipeBrief], ?_⟩⟩
    · have := sessionLoop_unbounded cfg0 h0 k 1 ⟨"", 0, [], []⟩
      exact ⟨this.1, by unfold runTTY; rw [this.2]; omega⟩
    · have := pipeLoop_unbounded cfg0 h0 k 1 ⟨0, 0, 0, 0, "", [], [], []⟩
      exact ⟨this.1, by unfold runPipe; rw [this.2]; omega⟩

/-- A string contains itself. -/
theorem Contains.refl (s : String) : Contains s s :=
  List.infix_refl s.data

/-- What the left operand of a concatenation contains, the concatenation contains. -/
theorem Contains.append_left {a x : String} (b : String) (h : Contains a x) :
    Contains (a ++ b) x := by
  unfold Contains at *
  rw [String.data_append]
  exact List.IsInfix.trans h (List.infix_append' [] a.data b.data)

/-- What the right operand of a concatenation contains, the concatenation contains. -/
theorem Contains.append_right (a : String) {b x : String} (h : Contains b x) :
    Contains (a ++ b) x := by
  unfold Contains at *
  rw [String.data_append]
  exact List.IsInfix.trans h (List.infix_append a.data b.data []) |>.trans (by simp)

/-- A piece appended after a text that ends in `c` is preceded by `c` in the result. -/
theorem Contains.tail_append (p c b : String) : Contains (p ++ c ++ b) (c ++ b) := by
  unfold Contains
  refine ⟨p.data, [], ?_⟩
  simp [String.data_append]

/-- The continuation template contains, verbatim, the task, the handoff and the two
session numbers each preceded by the word "session". -/
theorem continuationFormat_contains (n m : Int) (task gitState gitStatus handoff : String) :
    Contains (continuationFormat n m task gitState gitStatus handoff) handoff ∧
    Contains (continuationFormat n m task gitState gitStatus handoff) task ∧
    Contains (continuationFormat n m task gitState gitStatus handoff) ("session " ++ toString n) ∧
    Contains (continuationFormat n m task gitState gitStatus handoff)
      ("session " ++ toString m) := by
  unfold continuationFormat
  refine ⟨?_, ?_, ?_, ?_⟩
  · repeat (first
      | exact Contains.append_right _ (Contains.refl _)
      | apply Contains.append_left)
  · repeat (first
      | exact Contains.append_right _ (Contains.refl _)
      | apply Contains.append_left)
  · iterate 30 apply Contains.append_left
    have h : ("You are session " : String) = "You are " ++ "session " := rfl
    rw [h]
    exact Contains.tail_append "You are " "session " (toString n)
  · iterate 28 apply Contains.append_left
    have h : ("You are session " ++ toString n ++
        " of an autonomous state machine. You are resuming from session " : String) =
        "You are session " ++ toString n ++
        " of an autonomous state machine. You are resuming from " ++ "session " := by
      rw [String.append_assoc _ " of an autonomous state machine. You are resuming from "]
      rfl
    rw [h]
    exact Contains.tail_append _ "session " (toString m)

/-- C6: for every session number n (a 64-bit int), task t, handoff text h that names no
readable file, and every git output, buildContinuationPrompt(n, t, h) contains h, t,
"session " followed by n in decimal and "session " followed by the decimal rendering of
the predecessor index the code computes, which is n-1 for every n above the least int. -/
theorem buildContinuationPrompt_contains (env : PromptEnv) (n : Int) (t h : String)
    (hfile : env.readFile h = none) (hn : inInt64 n) :
    Contains (buildContinuationPrompt env n t h) h ∧
    Contains (buildContinuationPrompt env n t h) t ∧
    Contains (buildContinuationPrompt env n t h) ("session " ++ toString n) ∧
    Contains (buildContinuationPrompt env n t h) ("session " ++ toString (wrapInt64 (n - 1))) ∧
    (-9223372036854775808 < n →
      Contains (buildContinuationPrompt env n t h) ("session " ++ toString (n - 1))) := by
  have hr : resolveHandoff env h = h := by
    unfold resolveHandoff
    rw [hfile]
  have hc := continuationFormat_contains n (wrapInt64 (n - 1)) t
    (if runGit env.gitDiffStat = "" then "(no git history)" else runGit env.gitDiffStat)
    (runGit env.gitStatusShort) h
  have he : buildContinuationPrompt env n t h = continuationFormat n (wrapInt64 (n - 1)) t
      (if runGit env.gitDiffStat = "" then "(no git history)" else runGit env.gitDiffStat)
      (runGit env.gitStatusShort) h := by
    simp only [buildContinuationPrompt, hr]
  rw [he]
  refine ⟨hc.1, hc.2.1, hc.2.2.1, hc.2.2.2, ?_⟩
  intro hlow
  have hw : wrapInt64 (n - 1) = n - 1 := by
    unfold inInt64 at hn
    unfold wrapInt64
    omega
  rw [hw] at hc ⊢
  exact hc.2.2.2

/-- C6 (witness): the prompt of the repository's test, session 3 for the task
"Build a REST API" with the handoff "handoff text here", contains the handoff, the task,
"session 3" and "session 2". -/
theorem buildContinuationPrompt_contains_witness :
    Contains (buildContinuationPrompt bareEnv 3 "Build a REST API" "handoff text here")
      "handoff text here" ∧
    Contains (buildContinuationPrompt bareEnv 3 "Build a REST API" "handoff text here")
      "Build a REST API" ∧
    Contains (buildContinuationPrompt bareEnv 3 "Build a REST API" "handoff text here")
      "session 3" ∧
    Contains (buildContinuationPrompt bareEnv 3 "Build a REST API" "handoff text here")
      "session 2" :=
  ⟨(buildContinuationPrompt_contains bareEnv 3 "Build a REST API" "handoff text here" rfl
      (by decide)).1,
    (buildContinuationPrompt_contains bareEnv 3 "Build a REST API" "handoff text here" rfl
      (by decide)).2.1,
    (buildContinuationPrompt_contains bareEnv 3 "Build a REST API" "handoff text here" rfl
      (by decide)).2.2.1,
    (buildContinuationPrompt_contains bareEnv 3 "Build a REST API" "handoff text here" rfl
      (by decide)).2.2.2.2 (by decide)⟩

/-- C7: when handoffSource names a readable file with contents c, buildContinuationPrompt
renders the template with c as the handoff text, so the result does not depend on the
path (two readable paths with equal contents give the same prompt); when handoffSource
cannot be read as a file, it renders the template with handoffSource itself as the
handoff text. In the test's scenario the prompt holds the file's contents and not the
path. -/
theorem buildContinuationPrompt_resolution (env : PromptEnv) (n : Int) (t src : String) :
    (∀ c, env.readFile src = some c →
      buildContinuationPrompt env n t src =
        continuationFormat n (wrapInt64 (n - 1)) t
          (if runGit env.gitDiffStat = "" then "(no git history)" else runGit env.gitDiffStat)
          (runGit env.gitStatusShort) c) ∧
    (env.readFile src = none →
      buildContinuationPrompt env n t src =
        continuationFormat n (wrapInt64 (n - 1)) t
          (if runGit env.gitDiffStat = "" then "(no git history)" else runGit env.gitDiffStat)
          (runGit env.gitStatusShort) src) ∧
    (∀ c src2, env.readFile src = some c → env.readFile src2 = some c →
      buildContinuationPrompt env n t src = buildContinuationPrompt env n t src2) ∧
    (Contains (buildContinuationPrompt fileEnv 2 "my task" "/tmp/icc-test/handoff.md")
        "## Q0: file-based handoff content" ∧
      ¬ Contains (buildContinuationPrompt fileEnv 2 "my task" "/tmp/icc-test/handoff.md")
        "/tmp/icc-test/handoff.md") ∧
    Contains (buildContinuationPrompt fileEnv 2 "my task" "raw handoff notes")
      "raw handoff notes" := by
  refine ⟨?_, ?_, ?_, ?_, ?_⟩
  · intro c hc
    simp only [buildContinuationPrompt, resolveHandoff, hc]
  · intro hc
    simp only [buildContinuationPrompt, resolveHandoff, hc]
  · intro c src2 h1 h2
    simp only [buildContinuationPrompt, resolveHandoff, h1, h2]
  · decide!
  · decide!

/-- C4: in runPipe, a session with zero tool invocations and a result shorter than 200
bytes stops the relay after that session whatever max-sessions is (zero tools and a
50-byte result at session 1 with max-sessions 0 give exactly one session); a session with
a non-empty result and at least one tool invocation or at least 200 bytes reaches the end
of the loop body with its result as the context, and when the loop condition holds at
i + 1 session i + 1 is started with the prompt built by buildContinuationPrompt from that
result text (which the prompt contains verbatim when it names no readable file). -/
theorem runPipe_completion_policy (cfg : Config) (i : Nat) (st : PipeState) (o : PipeObs)
    (rest : List PipeObs) (hloop : loopCond cfg i) :
    (o.stats.toolUseCount = 0 → len o.result < 200 →
      (pipeLoop cfg i st (o :: rest)).finished = true ∧
      (pipeLoop cfg i st (o :: rest)).state.sessionCount = i ∧
      (pipeLoop cfg i st (o :: rest)).state.started = st.started ++ [i]) ∧
    (o.result ≠ "" → (1 ≤ o.stats.toolUseCount ∨ 200 ≤ len o.result) →
      (pipeSession cfg i st o).1 = Flow.next ∧
      (pipeSession cfg i st o).2.context = o.result ∧
      (loopCond cfg (i + 1) → 1 ≤ i → ∀ (o1 : PipeObs) (rest1 : List PipeObs),
        pipeLoop cfg i st (o :: o1 :: rest1) =
          pipeLoop cfg (i + 1) (pipeSession cfg i st o).2 (o1 :: rest1) ∧
        (pipeSession cfg (i + 1) (pipeSession cfg i st o).2 o1).2.started =
          st.started ++ [i, i + 1] ∧
        (pipeSession cfg (i + 1) (pipeSession cfg i st o).2 o1).2.prompts =
          (pipeSession cfg i st o).2.prompts ++
            [buildContinuationPrompt o1.env ((i + 1 : Nat) : Int) cfg.Task o.result ++ "\n\n" ++
              pipeSystemPrompt] ∧
        (o1.env.readFile o.result = none →
          Contains (buildContinuationPrompt o1.env ((i + 1 : Nat) : Int) cfg.Task o.result)
            o.result))) ∧
    ((exampleConfig 0 0).MaxSessions = 0 ∧ len pipeFiftyBytes.result = 50 ∧
      (runPipe (exampleConfig 0 0) [pipeFiftyBytes, pipeWorked]).finished = true ∧
      (runPipe (exampleConfig 0 0) [pipeFiftyBytes, pipeWorked]).state.sessionCount = 1 ∧
      (runPipe (exampleConfig 0 0) [pipeFiftyBytes, pipeWorked]).state.started = [1]) := by
  refine ⟨?_, ?_, ?_⟩
  · intro h0 hlen
    have hs : pipeSession cfg i st o = (Flow.brk, (pipeSession cfg i st o).2) := by
      simp [pipeSession, h0, hlen]
    rw [pipeLoop.eq_2, if_pos hloop, hs]
    exact ⟨rfl, (pipeSession_trace cfg i st o).1, (pipeSession_trace cfg i st o).2⟩
  · intro hne htl
    have hc : ¬ (o.stats.toolUseCount = 0 ∧ len o.result < 200) := by
      rintro ⟨h1, h2⟩
      omega
    have hs : pipeSession cfg i st o = (Flow.next, (pipeSession cfg i st o).2) := by
      simp [pipeSession, hc, hne]
    have hctx : (pipeSession cfg i st o).2.context = o.result := by
      simp [pipeSession, hc, hne]
    refine ⟨by rw [hs], hctx, ?_⟩
    intro hnext hi o1 rest1
    refine ⟨?_, ?_, ?_, ?_⟩
    · rw [pipeLoop.eq_2, if_pos hloop]
      conv_lhs => rw [hs]
    · rw [(pipeSession_trace cfg (i + 1) _ o1).2, (pipeSession_trace cfg i st o).2]
      simp
    · have hi1 : i + 1 ≠ 1 := by omega
      generalize pipeSession cfg i st o = r at hctx
      obtain ⟨fl, st1⟩ := r
      simp only at hctx
      unfold pipeSession
      simp only [pipePrompt, hi1, if_false, hctx]
      split_ifs <;> rfl
    · intro hfile
      have hr : resolveHandoff o1.env o.result = o.result := by
        unfold resolveHandoff
        rw [hfile]
      unfold buildContinuationPrompt
      simp only [hr]
      exact (continuationFormat_contains _ _ cfg.Task _ _ o.result).1
  · decide

/-- C4 (witness): with max-sessions 3, a first session that used a tool and returned a
non-empty result reaches the end of the loop body with its result as the context. -/
theorem runPipe_completion_policy_witness :
    (pipeSession (exampleConfig 3 0) 1 ⟨0, 0, 0, 0, "", [], [], []⟩ pipeWorked).1 = Flow.next ∧
    (pipeSession (exampleConfig 3 0) 1 ⟨0, 0, 0, 0, "", [], [], []⟩ pipeWorked).2.context
      = pipeWorked.result :=
  ⟨((runPipe_completion_policy (exampleConfig 3 0) 1 ⟨0, 0, 0, 0, "", [], [], []⟩ pipeWorked []
      (by decide)).2.1 (by decide) (Or.inl (by decide))).1,
    ((runPipe_completion_policy (exampleConfig 3 0) 1 ⟨0, 0, 0, 0, "", [], [], []⟩ pipeWorked []
      (by decide)).2.1 (by decide) (Or.inl (by decide))).2.1⟩

/-- C5 (code at the failing input): a streaming session whose subprocess could not be
started, or whose stream closed without any event, returns the empty result with zero
tool invocations; runPipe then stops with the message of implicit task completion and
does not print the empty-result error. -/
theorem runPipe_empty_result_reported_complete :
    (runPipeSession (fun _ => none) PipeProc.startError).1 = "" ∧
    (runPipeSession (fun _ => none) PipeProc.startError).2.toolUseCount = 0 ∧
    (runPipe (exampleConfig 0 0)
      [pipeObsOf bareEnv (runPipeSession (fun _ => none) PipeProc.startError)]).finished = true ∧
    (runPipe (exampleConfig 0 0)
      [pipeObsOf bareEnv (runPipeSession (fun _ => none) PipeProc.startError)]).state.messages
        = [PipeMsg.taskComplete] ∧
    (runPipe (exampleConfig 0 0)
      [pipeObsOf bareEnv (runPipeSession (fun _ => none) (PipeProc.started []))]).state.messages
        = [PipeMsg.taskComplete] := by
  decide

/-- Wrapping a sum whose first summand was wrapped gives the wrap of the plain sum. -/
theorem wrapInt64_add_wrap (a b : Int) : wrapInt64 (wrapInt64 a + b) = wrapInt64 (a + b) := by
  unfold wrapInt64
  omega

/-- A value that fits a 64-bit int is left unchanged by the wrap. -/
theorem wrapInt64_of_inInt64 (a : Int) (h : inInt64 a) : wrapInt64 a = a := by
  unfold inInt64 at h
  unfold wrapInt64
  omega

/-- The totals after one pass of the loop of runPipe: the previous totals plus the values
of that session, in float64 and in 64-bit int arithmetic. -/
theorem pipeSession_totals (cfg : Config) (i : Nat) (st : PipeState) (o : PipeObs) :
    (pipeSession cfg i st o).2.totalCost = st.totalCost + o.stats.cost ∧
    (pipeSession cfg i st o).2.totalInput = wrapInt64 (st.totalInput + o.stats.inputTokens) ∧
    (pipeSession cfg i st o).2.totalOutput =
      wrapInt64 (st.totalOutput + o.stats.outputTokens) := by
  unfold pipeSession
  simp only
  split_ifs <;> exact ⟨rfl, rfl, rfl⟩

/-- Loop invariant of runPipe for the totals: when the loop entered at i stops or runs out
of observations, it has consumed the first n of them and the totals are the entry totals
plus the values of those n sessions. -/
theorem pipeLoop_totals (cfg : Config) (world : List PipeObs) :
    ∀ (i : Nat) (st : PipeState), st.sessionCount + 1 = i →
      inInt64 st.totalInput → inInt64 st.totalOutput →
      ∃ n, n ≤ world.length ∧
        (pipeLoop cfg i st world).state.sessionCount = st.sessionCount + n ∧
        (pipeLoop cfg i st world).state.totalCost =
          ((world.take n).map fun o => o.stats.cost).foldl (fun a c => a + c) st.totalCost ∧
        (pipeLoop cfg i st world).state.totalInput =
          wrapInt64 (st.totalInput + ((world.take n).map fun o => o.stats.inputTokens).sum) ∧
        (pipeLoop cfg i st world).state.totalOutput =
          wrapInt64 (st.totalOutput + ((world.take n).map fun o => o.stats.outputTokens).sum) := by
  induction world with
  | nil =>
    intro i st _ hin hout
    refine ⟨0, le_refl _, ?_⟩
    rw [pipeLoop.eq_1]
    split_ifs <;>
      simp [wrapInt64_of_inInt64 _ hin, wrapInt64_of_inInt64 _ hout]
  | cons o rest ih =>
    intro i st hi hin hout
    rw [pipeLoop.eq_2]
    split_ifs with hc
    · obtain ⟨hcnt, _⟩ := pipeSession_trace cfg i st o
      obtain ⟨hcost, hinp, houtp⟩ := pipeSession_totals cfg i st o
      cases hq : pipeSession cfg i st o with
      | mk fl st1 =>
        rw [hq] at hcnt hcost hinp houtp
        simp only at hcnt hcost hinp houtp
        have hone : ∃ n, n ≤ (o :: rest).length ∧
            st1.sessionCount = st.sessionCount + n ∧
            st1.totalCost = (((o :: rest).take n).map fun o => o.stats.cost).foldl
              (fun a c => a + c) st.totalCost ∧
            st1.totalInput = wrapInt64 (st.totalInput +
              (((o :: rest).take n).map fun o => o.stats.inputTokens).sum) ∧
            st1.totalOutput = wrapInt64 (st.totalOutput +
              (((o :: rest).take n).map fun o => o.stats.outputTokens).sum) := by
          refine ⟨1, by simp, by omega, ?_, ?_, ?_⟩
          · simp [hcost]
          · simp [hinp]
          · simp [houtp]
        cases fl with
        | next =>
          have hin1 : inInt64 st1.totalInput := by
            rw [hinp]
            unfold inInt64 wrapInt64
            omega
          have hout1 : inInt64 st1.totalOutput := by
            rw [houtp]
            unfold inInt64 wrapInt64
            omega
          obtain ⟨n, hn, h1, h2, h3, h4⟩ := ih (i + 1) st1 (by omega) hin1 hout1
          refine ⟨n + 1, by simp [hn], by simp only; omega, ?_, ?_, ?_⟩
          · simp only
            rw [h2, hcost]
            simp
          · simp only
            rw [h3, hinp, wrapInt64_add_wrap]
            simp [Int.add_assoc]
          · simp only
            rw [h4, houtp, wrapInt64_add_wrap]
            simp [Int.add_assoc]
        | brk => exact hone
        | waiting => exact hone
    · refine ⟨0, by simp, ?_⟩
      simp [wrapInt64_of_inInt64 _ hin, wrapInt64_of_inInt64 _ hout]

/-- C10 (counterexample): two sessions that each report 2^62 input tokens (non-negative
values); after session 1 the input total is 2^62, after session 2 it is -2^63, which is
neither the sum 2^63 of the per-session values nor at least the previous total. -/
theorem runPipe_totals_wrap :
    (runPipe (exampleConfig 0 0) [pipeHugeUsage]).state.totalInput = 4611686018427387904 ∧
    (runPipe (exampleConfig 0 0) [pipeHugeUsage, pipeHugeUsage]).state.sessionCount = 2 ∧
    (runPipe (exampleConfig 0 0) [pipeHugeUsage, pipeHugeUsage]).state.totalInput
      = -9223372036854775808 ∧
    (runPipe (exampleConfig 0 0) [pipeHugeUsage, pipeHugeUsage]).state.totalInput
      ≠ pipeHugeUsage.stats.inputTokens + pipeHugeUsage.stats.inputTokens ∧
    ¬ ((runPipe (exampleConfig 0 0) [pipeHugeUsage]).state.totalInput
      ≤ (runPipe (exampleConfig 0 0) [pipeHugeUsage, pipeHugeUsage]).state.totalInput) := by
  decide

/-- C10 (amended): in runPipe the totals after each session are the previous totals plus
that session's values, the cost in float64 addition and the token counts in 64-bit int
arithmetic; the statistics are never reset, so the totals reported with session count k
are the float64 sum of the k costs and the wrapped sums of the k token counts, which are
the exact sums whenever these fit a 64-bit int; a token total does not decrease across a
session with a non-negative value whose addition does not overflow. -/
theorem runPipe_statistics (cfg : Config) (i : Nat) (st : PipeState) (o : PipeObs)
    (world : List PipeObs) :
    ((pipeSession cfg i st o).2.totalCost = st.totalCost + o.stats.cost ∧
      (pipeSession cfg i st o).2.totalInput = wrapInt64 (st.totalInput + o.stats.inputTokens) ∧
      (pipeSession cfg i st o).2.totalOutput =
        wrapInt64 (st.totalOutput + o.stats.outputTokens)) ∧
    (inInt64 (st.totalInput + o.stats.inputTokens) →
      (pipeSession cfg i st o).2.totalInput = st.totalInput + o.stats.inputTokens ∧
      (0 ≤ o.stats.inputTokens → st.totalInput ≤ (pipeSession cfg i st o).2.totalInput)) ∧
    (inInt64 (st.totalOutput + o.stats.outputTokens) →
      (pipeSession cfg i st o).2.totalOutput = st.totalOutput + o.stats.outputTokens ∧
      (0 ≤ o.stats.outputTokens → st.totalOutput ≤ (pipeSession cfg i st o).2.totalOutput)) ∧
    ((runPipe cfg world).state.sessionCount ≤ world.length ∧
      (runPipe cfg world).state.totalCost =
        (((world.take (runPipe cfg world).state.sessionCount).map fun o => o.stats.cost).foldl
          (fun a c => a + c) 0) ∧
      (runPipe cfg world).state.totalInput =
        wrapInt64 ((world.take (runPipe cfg world).state.sessionCount).map
          fun o => o.stats.inputTokens).sum ∧
      (runPipe cfg world).state.totalOutput =
        wrapInt64 ((world.take (runPipe cfg world).state.sessionCount).map
          fun o => o.stats.outputTokens).sum ∧
      (inInt64 ((world.take (runPipe cfg world).state.sessionCount).map
          fun o => o.stats.inputTokens).sum →
        (runPipe cfg world).state.totalInput =
          ((world.take (runPipe cfg world).state.sessionCount).map
            fun o => o.stats.inputTokens).sum) ∧
      (inInt64 ((world.take (runPipe cfg world).state.sessionCount).map
          fun o => o.stats.outputTokens).sum →
        (runPipe cfg world).state.totalOutput =
          ((world.take (runPipe cfg world).state.sessionCount).map
            fun o => o.stats.outputTokens).sum)) := by
  obtain ⟨hcost, hinp, houtp⟩ := pipeSession_totals cfg i st o
  refine ⟨⟨hcost, hinp, houtp⟩, ?_, ?_, ?_⟩
  · intro hr
    rw [hinp, wrapInt64_of_inInt64 _ hr]
    exact ⟨rfl, fun h => by omega⟩
  · intro hr
    rw [houtp, wrapInt64_of_inInt64 _ hr]
    exact ⟨rfl, fun h => by omega⟩
  · obtain ⟨n, hn, h1, h2, h3, h4⟩ :=
      pipeLoop_totals cfg world 1 ⟨0, 0, 0, 0, "", [], [], []⟩ rfl (by decide) (by decide)
    have hk : (runPipe cfg world).state.sessionCount = n := by
      unfold runPipe
      rw [h1]
      simp
    have h3a : (runPipe cfg world).state.totalInput =
        wrapInt64 ((world.take n).map fun o => o.stats.inputTokens).sum := by
      unfold runPipe
      rw [h3]
      simp
    have h4a : (runPipe cfg world).state.totalOutput =
        wrapInt64 ((world.take n).map fun o => o.stats.outputTokens).sum := by
      unfold runPipe
      rw [h4]
      simp
    rw [hk]
    refine ⟨hn, ?_, h3a, h4a, ?_, ?_⟩
    · unfold runPipe
      rw [h2]
    · intro hr
      rw [h3a, wrapInt64_of_inInt64 _ hr]
    · intro hr
      rw [h4a, wrapInt64_of_inInt64 _ hr]

/-- What remains after a repetition of a character class: the input with a prefix of
characters of the class removed. -/
theorem mem_rests_star_cls (W : Char → Bool) :
    ∀ (l : List Char) (f : Nat) (t : List Char), l.length + 1 ≤ f →
      (t ∈ Regex.rests f (Regex.star (Regex.cls W)) l ↔
        ∃ pre, l = pre ++ t ∧ ∀ c ∈ pre, W c = true) := by
  intro l
  induction l with
  | nil =>
    intro f t hf
    obtain ⟨f0, rfl⟩ : ∃ f0, f = f0 + 1 := ⟨f - 1, by omega⟩
    have h0 : Regex.rests f0 (Regex.cls W) [] = [] := by
      cases f0 <;> rfl
    simp only [Regex.rests, h0, List.filter_nil, List.flatMap_nil, List.mem_singleton]
    constructor
    · rintro rfl
      exact ⟨[], rfl, by simp⟩
    · rintro ⟨pre, hp, _⟩
      have := congrArg List.length hp
      simp only [List.length_nil, List.length_append] at this
      exact List.length_eq_zero.mp (by omega)
  | cons c cs ih =>
    intro f t hf
    simp only [List.length_cons] at hf
    obtain ⟨f0, rfl⟩ : ∃ f0, f = f0 + 2 := ⟨f - 2, by omega⟩
    have hcls : Regex.rests (f0 + 1) (Regex.cls W) (c :: cs) = if W c = true then [cs] else [] :=
      rfl
    rw [Regex.rests, hcls]
    by_cases hW : W c = true
    · simp only [hW, if_true, List.filter_cons, List.length_cons, Nat.lt_succ_self,
        decide_True, List.filter_nil, List.flatMap_cons, List.flatMap_nil, List.append_nil,
        List.mem_cons]
      rw [ih (f0 + 1) t (by omega)]
      constructor
      · rintro (rfl | ⟨pre, hp, hall⟩)
        · exact ⟨[], rfl, by simp⟩
        · refine ⟨c :: pre, by rw [hp]; rfl, ?_⟩
          intro x hx
          rcases List.mem_cons.mp hx with rfl | hx
          · exact hW
          · exact hall x hx
      · rintro ⟨pre, hp, hall⟩
        cases pre with
        | nil => exact Or.inl hp.symm
        | cons a pre1 =>
          simp only [List.cons_append, List.cons.injEq] at hp
          exact Or.inr ⟨pre1, hp.2, fun x hx => hall x (List.mem_cons_of_mem a hx)⟩
    · simp only [hW, if_false, List.filter_nil, List.flatMap_nil, List.mem_singleton,
        Bool.false_eq_true]
      constructor
      · rintro rfl
        exact ⟨[], rfl, by simp⟩
      · rintro ⟨pre, hp, hall⟩
        cases pre with
        | nil => exact hp.symm
        | cons a pre1 =>
          simp only [List.cons_append, List.cons.injEq] at hp
          exact absurd (hall a (List.mem_cons_self a pre1)) (by rw [← hp.1]; exact hW)

/-- A repetition of a character class followed by the end of the text matches at the head
of an input exactly when the whole input consists of characters of the class. -/
theorem rests_star_cls_endText (W : Char → Bool) (l : List Char) (f : Nat)
    (hf : l.length + 2 ≤ f) :
    Regex.rests f (Regex.seq (Regex.star (Regex.cls W)) Regex.endText) l ≠ [] ↔
      ∀ c ∈ l, W c = true := by
  obtain ⟨f0, rfl⟩ : ∃ f0, f = f0 + 2 := ⟨f - 2, by omega⟩
  have hend : ∀ t : List Char, Regex.rests (f0 + 1) Regex.endText t ≠ [] ↔ t = [] := by
    intro t
    cases t <;> simp [Regex.rests]
  rw [Regex.rests]
  rw [Ne, List.flatMap_eq_nil_iff]
  push_neg
  constructor
  · rintro ⟨t, ht, hne⟩
    rw [hend] at hne
    subst hne
    obtain ⟨pre, hp, hall⟩ := (mem_rests_star_cls W l (f0 + 1) [] (by omega)).mp ht
    rw [List.append_nil] at hp
    rw [hp]
    exact hall
  · intro hall
    refine ⟨[], (mem_rests_star_cls W l (f0 + 1) [] (by omega)).mpr ⟨l, by simp, hall⟩, ?_⟩
    rw [hend]

/-- The shell-prompt pattern matches at the head of an input exactly when the input is a
'%' or a '$' followed by characters of class `\s` only. -/
theorem rests_shellPromptRe (t : List Char) (f : Nat) (hf : t.length + 3 ≤ f) :
    Regex.rests f shellPromptRe t ≠ [] ↔
      ∃ c cs, t = c :: cs ∧ (c = '%' ∨ c = '$') ∧ ∀ x ∈ cs, perlSpace x = true := by
  obtain ⟨f0, rfl⟩ : ∃ f0, f = f0 + 2 := ⟨f - 2, by omega⟩
  unfold shellPromptRe
  rw [Regex.rests]
  cases t with
  | nil => simp [Regex.rests]
  | cons c cs =>
    simp only [List.length_cons] at hf
    have hcls : Regex.rests (f0 + 1) (Regex.cls fun c => c = '%' || c = '$') (c :: cs) =
        if (c = '%' || c = '$') = true then [cs] else [] := rfl
    rw [hcls]
    by_cases hP : (c = '%' || c = '$') = true
    · simp only [hP, if_true, List.flatMap_cons, List.flatMap_nil, List.append_nil]
      rw [rests_star_cls_endText perlSpace cs (f0 + 1) (by omega)]
      constructor
      · intro hall
        refine ⟨c, cs, rfl, ?_, hall⟩
        simpa using hP
      · rintro ⟨c1, cs1, heq, _, hall⟩
        simp only [List.cons.injEq] at heq
        rw [heq.2]
        exact hall
    · simp only [hP, if_false, List.flatMap_nil, ne_eq, not_true_eq_false, false_iff,
        Bool.false_eq_true]
      rintro ⟨c1, cs1, heq, hc, _⟩
      simp only [List.cons.injEq] at heq
      apply hP
      rw [heq.1]
      simpa using hc

/-- The shell-prompt pattern matches a text exactly when the text splits into a prefix, a
'%' or '$', and characters of class `\s` up to its end. -/
theorem shellPromptRe_matchString_split (s : String) :
    shellPromptRe.MatchString s = true ↔
      ∃ pre c cs, s.data = pre ++ c :: cs ∧ (c = '%' ∨ c = '$') ∧
        ∀ x ∈ cs, perlSpace x = true := by
  unfold Regex.MatchString
  rw [List.any_eq_true]
  have hsize : shellPromptRe.size = 6 := rfl
  constructor
  · rintro ⟨t, ht, hne⟩
    rw [List.mem_tails] at ht
    obtain ⟨pre, hpre⟩ := ht
    have hne1 : Regex.rests ((t.length + 1) * shellPromptRe.size + 1) shellPromptRe t ≠ [] := by
      intro h
      rw [h] at hne
      simp at hne
    obtain ⟨c, cs, hc, hP, hall⟩ :=
      (rests_shellPromptRe t _ (by rw [hsize]; omega)).mp hne1
    exact ⟨pre, c, cs, by rw [← hpre, hc], hP, hall⟩
  · rintro ⟨pre, c, cs, hs, hP, hall⟩
    refine ⟨c :: cs, ?_, ?_⟩
    · rw [List.mem_tails]
      exact ⟨pre, hs.symm⟩
    · have := (rests_shellPromptRe (c :: cs) (((c :: cs).length + 1) * shellPromptRe.size + 1)
        (by rw [hsize]; omega)).mpr ⟨c, cs, rfl, hP, hall⟩
      cases h : Regex.rests (((c :: cs).length + 1) * shellPromptRe.size + 1) shellPromptRe
          (c :: cs) with
      | nil => exact absurd h this
      | cons a b => rfl

/-- C8: shellPromptRe matches s if and only if s, with its trailing characters among
space, tab, newline, carriage return and form feed removed, is non-empty and ends in '%'
or '$'; so the prompts of the test table match and the texts with the character
mid-line, without it, or empty do not. -/
theorem shellPromptRe_matches_iff (s : String) :
    (shellPromptRe.MatchString s = true ↔
      ((stripTrailingSpace s).getLast? = some '%' ∨
        (stripTrailingSpace s).getLast? = some '$')) ∧
    (shellPromptRe.MatchString "user@host ~ % " = true ∧
      shellPromptRe.MatchString "user@host ~ %" = true ∧
      shellPromptRe.MatchString "user@host:~$ " = true ∧
      shellPromptRe.MatchString "$" = true ∧
      shellPromptRe.MatchString "some output\nmore output\nuser@host ~ % " = true ∧
      shellPromptRe.MatchString "echo $HOME" = false ∧
      shellPromptRe.MatchString "100% done" = false ∧
      shellPromptRe.MatchString "user@host:~" = false ∧
      shellPromptRe.MatchString "" = false) := by
  refine ⟨?_, by decide⟩
  rw [shellPromptRe_matchString_split]
  unfold stripTrailingSpace
  have hnot : ∀ c : Char, (c = '%' ∨ c = '$') → ¬ perlSpace c = true := by
    rintro c (rfl | rfl) <;> decide
  constructor
  · rintro ⟨pre, c, cs, hs, hP, hall⟩
    have hrev : s.data.reverse = cs.reverse ++ c :: pre.reverse := by
      rw [hs]
      simp
    have hdrop : (s.data.reverse).dropWhile perlSpace = c :: pre.reverse := by
      rw [hrev, List.dropWhile_append_of_pos (fun x hx => hall x (List.mem_reverse.mp hx))]
      rw [List.dropWhile_cons_of_neg (hnot c hP)]
    rw [hdrop]
    have hl : (c :: pre.reverse).reverse.getLast? = some c := by simp
    rw [hl]
    rcases hP with rfl | rfl
    · exact Or.inl rfl
    · exact Or.inr rfl
  · intro h
    have hsplit := List.takeWhile_append_dropWhile perlSpace s.data.reverse
    cases hd : (s.data.reverse).dropWhile perlSpace with
    | nil =>
      rw [hd] at h
      simp at h
    | cons c rest =>
      rw [hd] at h hsplit
      have hl : (c :: rest).reverse.getLast? = some c := by simp
      rw [hl] at h
      simp only [Option.some.injEq] at h
      refine ⟨rest.reverse, c, (s.data.reverse.takeWhile perlSpace).reverse, ?_, h, ?_⟩
      · have := congrArg List.reverse hsplit
        simp only [List.reverse_append, List.reverse_cons, List.reverse_reverse] at this
        exact this.symm.trans (by simp)
      · intro x hx
        rw [List.mem_reverse] at hx
        exact List.mem_takeWhile_imp hx

/-- C1 (witness): with max-sessions 3, session 2 is started after a session 1 whose
handoff file the detector confirmed. -/
theorem runTTY_next_session_iff_witness :
    loopCond (exampleConfig 3 600) 1 ∧
    startsNext (exampleConfig 3 600) 1 ⟨"", 0, [], []⟩ handoffWritten :=
  ⟨by decide,
    (runTTY_next_session_iff (exampleConfig 3 600) 1 ⟨"", 0, [], []⟩ handoffWritten []
      (by decide)).1.mpr ⟨Or.inl ⟨rfl, rfl, by decide⟩, Or.inr (by decide)⟩⟩

/-- C9 (witness): with max-sessions 2 and three sessions that each produce a handoff,
runTTY starts sessions 1 and 2 only and reports 2. -/
theorem max_sessions_bound_witness :
    (0 : Int) < (exampleConfig 2 600).MaxSessions ∧
    (runTTY (exampleConfig 2 600)
      [handoffWritten, handoffWritten, handoffWritten]).state.started =
      List.range' 1 (runTTY (exampleConfig 2 600)
        [handoffWritten, handoffWritten, handoffWritten]).state.lastSession ∧
    ((runTTY (exampleConfig 2 600)
      [handoffWritten, handoffWritten, handoffWritten]).state.lastSession : Int) ≤ 2 :=
  ⟨by decide,
    (max_sessions_bound (exampleConfig 2 600) (by decide)
      [handoffWritten, handoffWritten, handoffWritten] []).1⟩

/-- C2 (witness): a poll that confirms both the handoff file and the idle prompt after
the deadline is classified HandoffProduced. -/
theorem pollOnce_classification_witness :
    pollOnce 10 ⟨true, true, true, true, 99⟩ = some 0 :=
  (pollOnce_classification 10 ⟨true, true, true, true, 99⟩).1 rfl

/-- Containment is transitive. -/
theorem Contains.trans {a b c : String} (h₁ : Contains a b) (h₂ : Contains b c) :
    Contains a c :=
  List.IsInfix.trans h₂ h₁

/-- C12: for every handoff path p, renderSystemPrompt(p) and pipeSystemPrompt() both
contain the whole handoffFormat text (with its five questions Q0 to Q4) and the whole
handoffRules text; renderSystemPrompt(p) also contains p and the Write-tool instruction,
and pipeSystemPrompt() does not contain "ICC_HANDOFF_PATH". -/
theorem system_prompts_share_schema (p : String) :
    (Contains (renderSystemPrompt p) handoffFormat ∧
      Contains (renderSystemPrompt p) handoffRules) ∧
    (Contains pipeSystemPrompt handoffFormat ∧ Contains pipeSystemPrompt handoffRules) ∧
    (Contains handoffFormat "## Q0: " ∧ Contains handoffFormat "## Q1: " ∧
      Contains handoffFormat "## Q2: " ∧ Contains handoffFormat "## Q3: " ∧
      Contains handoffFormat "## Q4: ") ∧
    Contains (renderSystemPrompt p) p ∧
    Contains (renderSystemPrompt p)
      "Use the Write tool to create the handoff file at the EXACT path above" ∧
    Contains (renderSystemPrompt p) "ICC_HANDOFF_PATH" ∧
    ¬ Contains pipeSystemPrompt "ICC_HANDOFF_PATH" := by
  refine ⟨⟨?_, ?_⟩, ⟨?_, ?_⟩, by decide!, ?_, ?_, ?_, by decide!⟩
  · unfold renderSystemPrompt
    iterate 8 apply Contains.append_left
    exact Contains.append_right _ (Contains.refl _)
  · unfold renderSystemPrompt
    iterate 2 apply Contains.append_left
    exact Contains.append_right _ (Contains.refl _)
  · unfold pipeSystemPrompt
    iterate 4 apply Contains.append_left
    exact Contains.append_right _ (Contains.refl _)
  · unfold pipeSystemPrompt
    exact Contains.append_right _ (Contains.refl _)
  · unfold renderSystemPrompt
    iterate 21 apply Contains.append_left
    exact Contains.append_right _ (Contains.refl _)
  · unfold renderSystemPrompt
    iterate 16 apply Contains.append_left
    refine Contains.append_right _ (?_ : Contains
      "2. Use the Write tool to create the handoff file at the EXACT path above\n" _)
    decide!
  · unfold renderSystemPrompt
    iterate 23 apply Contains.append_left
    refine Contains.append_right _ (?_ : Contains
      "The environment variable ICC_HANDOFF_PATH is set to:\n" _)
    decide!

/-- C15: the protocol-instructions builders are functions of their arguments alone: for
every handoff path, renderSystemPrompt is one fixed text before the path and one fixed
text after it, so two calls with the same path give the same bytes, and pipeSystemPrompt
is one fixed text. -/
theorem system_prompts_deterministic :
    (∃ pre post : String, ∀ p : String, renderSystemPrompt p = pre ++ p ++ post) ∧
    (∀ p q : String, p = q → renderSystemPrompt p = renderSystemPrompt q) ∧
    (∀ p : String, renderSystemPrompt p = renderSystemPrompt p) ∧
    pipeSystemPrompt = pipeSystemPrompt := by
  refine ⟨?_, fun p q h => by rw [h], fun p => rfl, rfl⟩
  refine ⟨"[IMPORTANT SYSTEM INSTRUCTION — ICC RELAY PROTOCOL]\n" ++
    "\n" ++
    "You are one node in an autonomous state machine. When your context fills up, a supervisor will restart a fresh agent that inherits your state. Your job is to make progress on the task and, when warned about context limits, write a handoff file so the next agent can resume without loss.\n" ++
    "\n" ++
    "## Handoff Mechanism\n" ++
    "\n" ++
    "The environment variable ICC_HANDOFF_PATH is set to:\n" ++
    "  ",
    "\n" ++
    "\n" ++
    "When you receive a context warning (⚠ Context used...), you MUST:\n" ++
    "1. Finish your current immediate step\n" ++
    "2. Use the Write tool to create the handoff file at the EXACT path above\n" ++
    "3. The file signals the supervisor to start a new session — this is how the relay works\n" ++
    "\n" ++
    "## Handoff File Format\n" ++
    "\n" ++
    "The file MUST follow this structure:\n" ++
    "\n" ++
    "```markdown\n" ++
    handoffFormat ++
    "\n" ++
    "```\n" ++
    "\n" ++
    "## Critical Rules\n" ++
    "\n" ++
    handoffRules ++
    "\n" ++
    "- The handoff is a FILE written via the Write tool — NOT text output to the conversation.",
    ?_⟩
  intro p
  unfold renderSystemPrompt
  simp only [String.append_assoc]

/-- The loop of pollUntil returns exactly when the observations split into steps that
neither met the condition nor passed the deadline, followed by a step that did one of the
two; the value is that step's answer and the number of calls counts it as the last. -/
theorem pollLoop_eq_some_iff (deadline : Int) (steps : List CheckObs) (b : Bool) (n : Nat) :
    pollLoop deadline steps = some (b, n) ↔
      ∃ pre last post, steps = pre ++ last :: post ∧
        (∀ s ∈ pre, s.check = false ∧ ¬ s.now > deadline) ∧
        n = pre.length + 1 ∧ b = last.check ∧ (last.check = false → last.now > deadline) := by
  induction steps generalizing b n with
  | nil =>
    simp only [pollLoop]
    constructor
    · intro h
      cases h
    · rintro ⟨pre, last, post, h, _⟩
      cases pre <;> cases h
  | cons o rest ih =>
    by_cases hc : o.check = true
    · have e : pollLoop deadline (o :: rest) = some (true, 1) := by
        simp [pollLoop, hc]
      rw [e]
      simp only [Option.some.injEq, Prod.mk.injEq]
      constructor
      · rintro ⟨rfl, rfl⟩
        exact ⟨[], o, rest, rfl, by simp, rfl, hc.symm, by simp [hc]⟩
      · rintro ⟨pre, last, post, h, hpre, hn, hb, _⟩
        cases pre with
        | nil =>
          simp only [List.nil_append, List.cons.injEq] at h
          rw [hb, ← h.1, hc]
          exact ⟨rfl, by simpa using hn.symm⟩
        | cons a pre1 =>
          simp only [List.cons_append, List.cons.injEq] at h
          have := (hpre a (List.mem_cons_self a pre1)).1
          rw [← h.1, hc] at this
          cases this
    · have hcf : o.check = false := by simpa using hc
      by_cases hd : o.now > deadline
      · have e : pollLoop deadline (o :: rest) = some (false, 1) := by
          simp [pollLoop, hcf, hd]
        rw [e]
        simp only [Option.some.injEq, Prod.mk.injEq]
        constructor
        · rintro ⟨rfl, rfl⟩
          exact ⟨[], o, rest, rfl, by simp, rfl, hcf.symm, fun _ => hd⟩
        · rintro ⟨pre, last, post, h, hpre, hn, hb, _⟩
          cases pre with
          | nil =>
            simp only [List.nil_append, List.cons.injEq] at h
            rw [hb, ← h.1, hcf]
            exact ⟨rfl, by simpa using hn.symm⟩
          | cons a pre1 =>
            simp only [List.cons_append, List.cons.injEq] at h
            have := (hpre a (List.mem_cons_self a pre1)).2
            rw [← h.1] at this
            exact absurd hd this
      · have e : pollLoop deadline (o :: rest) =
            match pollLoop deadline rest with
            | some (b, n) => some (b, n + 1)
            | none => none := by
          simp [pollLoop, hcf, hd]
        rw [e]
        constructor
        · intro h
          cases hr : pollLoop deadline rest with
          | none => rw [hr] at h; cases h
          | some r =>
            obtain ⟨b1, n1⟩ := r
            rw [hr] at h
            simp only [Option.some.injEq, Prod.mk.injEq] at h
            obtain ⟨pre, last, post, h1, h2, h3, h4, h5⟩ := (ih b1 n1).mp hr
            refine ⟨o :: pre, last, post, by rw [h1]; rfl, ?_, ?_, ?_, h5⟩
            · intro x hx
              rcases List.mem_cons.mp hx with rfl | hx
              · exact ⟨hcf, hd⟩
              · exact h2 x hx
            · rw [← h.2, h3]
              rfl
            · rw [← h.1, h4]
        · rintro ⟨pre, last, post, h, hpre, hn, hb, hl⟩
          cases pre with
          | nil =>
            simp only [List.nil_append, List.cons.injEq] at h
            rw [← h.1] at hl
            exact absurd (hl hcf) hd
          | cons a pre1 =>
            simp only [List.cons_append, List.cons.injEq] at h
            have hr := (ih b pre1.length.succ).mpr ⟨pre1, last, post, h.2,
              fun x hx => hpre x (List.mem_cons_of_mem a hx), rfl, hb, hl⟩
            rw [hr, hn]
            rfl

/-- The loop of pollUntil returns as soon as the observations hold a step whose check
succeeded or whose clock reading is past the deadline. -/
theorem pollLoop_returns (deadline : Int) (steps : List CheckObs)
    (h : ∃ s ∈ steps, s.check = true ∨ s.now > deadline) :
    ∃ r, pollLoop deadline steps = some r := by
  induction steps with
  | nil =>
    obtain ⟨s, hs, _⟩ := h
    cases hs
  | cons o rest ih =>
    simp only [pollLoop]
    by_cases hc : o.check = true
    · exact ⟨(true, 1), by simp [hc]⟩
    · by_cases hd : o.now > deadline
      · exact ⟨(false, 1), by simp [hc, hd]⟩
      · obtain ⟨s, hs, hs2⟩ := h
        rcases List.mem_cons.mp hs with rfl | hs
        · rcases hs2 with h1 | h1
          · exact absurd h1 hc
          · exact absurd h1 hd
        · obtain ⟨r, hr⟩ := ih ⟨s, hs, hs2⟩
          exact ⟨(r.1, r.2 + 1), by simp [hc, hd, hr]⟩

/-- C13: whenever pollUntil returns it has called checkFn at least once, also under a
zero or negative timeout; it returns true exactly when its last call of checkFn returned
true, every earlier call having returned false; it returns false only when every call
returned false and the clock read after the last call was past the deadline; and it does
return once a check succeeds or the clock passes the deadline. -/
theorem pollUntil_spec (start timeout : Int) (steps : List CheckObs) (b : Bool) (n : Nat) :
    (pollUntil start timeout steps = some (b, n) ↔
      ∃ pre last post, steps = pre ++ last :: post ∧
        (∀ s ∈ pre, s.check = false ∧ ¬ s.now > start + timeout) ∧
        n = pre.length + 1 ∧ b = last.check ∧
        (last.check = false → last.now > start + timeout)) ∧
    (pollUntil start timeout steps = some (b, n) → 1 ≤ n ∧ n ≤ steps.length) ∧
    (pollUntil start timeout steps = some (false, n) →
      ∀ s ∈ steps.take n, s.check = false) ∧
    ((∃ s ∈ steps, s.check = true ∨ s.now > start + timeout) →
      ∃ r, pollUntil start timeout steps = some r) ∧
    (pollUntil 100 0 [⟨true, 100⟩] = some (true, 1) ∧
      pollUntil 100 (-5) [⟨false, 100⟩] = some (false, 1) ∧
      pollUntil 100 0 [⟨false, 100⟩, ⟨true, 100⟩] = some (true, 2) ∧
      pollUntil 0 50000000 [⟨false, 10⟩, ⟨false, 10000010⟩, ⟨false, 50000001⟩]
        = some (false, 3)) := by
  have key := pollLoop_eq_some_iff (start + timeout) steps
  refine ⟨key b n, ?_, ?_, pollLoop_returns (start + timeout) steps, by decide⟩
  · intro h
    obtain ⟨pre, last, post, h1, _, h3, _, _⟩ := (key b n).mp h
    rw [h1, h3]
    simp only [List.length_append, List.length_cons]
    omega
  · intro h
    obtain ⟨pre, last, post, h1, h2, h3, h4, _⟩ := (key false n).mp h
    rw [h1, h3]
    intro s hs
    have : (pre ++ last :: post).take (pre.length + 1) = pre ++ [last] := by
      rw [List.take_append_eq_append_take]
      simp
    rw [this] at hs
    rcases List.mem_append.mp hs with hs | hs
    · exact (h2 s hs).1
    · rw [List.mem_singleton] at hs
      rw [hs]
      exact h4.symm

/-- C11: every run of gracefulExit that returns has sent exactly [Escape, literal "/exit",
Enter] when its first poll observed the idle shell prompt, and exactly [Escape, "/exit",
Enter, C-c, Escape, "/exit", Enter] when that poll timed out; it returns once its polls
return. In every run, returned or not, each "/exit" is a literal send of its own directly
followed by the send of Enter, the trace starts with the exit sequence, and C-c is sent
at most once. -/
theorem gracefulExit_trace (timeout : Int) (first second : PollUntilObs) :
    (∀ n, pollUntil first.start timeout first.steps = some (true, n) →
      gracefulExit timeout first second =
        ⟨true, [PaneCmd.keys ["Escape"], PaneCmd.literal "/exit", PaneCmd.keys ["Enter"]]⟩) ∧
    (∀ n, pollUntil first.start timeout first.steps = some (false, n) →
      (gracefulExit timeout first second).state =
        [PaneCmd.keys ["Escape"], PaneCmd.literal "/exit", PaneCmd.keys ["Enter"],
          PaneCmd.keys ["C-c"], PaneCmd.keys ["Escape"], PaneCmd.literal "/exit",
          PaneCmd.keys ["Enter"]] ∧
      ((gracefulExit timeout first second).finished = true ↔
        ∃ r, pollUntil second.start 15000000000 second.steps = some r)) ∧
    ((gracefulExit timeout first second).finished = true →
      ((∃ n, pollUntil first.start timeout first.steps = some (true, n)) ∧
        (gracefulExit timeout first second).state =
          [PaneCmd.keys ["Escape"], PaneCmd.literal "/exit", PaneCmd.keys ["Enter"]]) ∨
      ((∃ n, pollUntil first.start timeout first.steps = some (false, n)) ∧
        (gracefulExit timeout first second).state =
          [PaneCmd.keys ["Escape"], PaneCmd.literal "/exit", PaneCmd.keys ["Enter"],
            PaneCmd.keys ["C-c"], PaneCmd.keys ["Escape"], PaneCmd.literal "/exit",
            PaneCmd.keys ["Enter"]])) ∧
    exitSentBeforeEnter (gracefulExit timeout first second).state ∧
    [PaneCmd.keys ["Escape"], PaneCmd.literal "/exit", PaneCmd.keys ["Enter"]] <+:
      (gracefulExit timeout first second).state ∧
    (gracefulExit timeout first second).state.count (PaneCmd.keys ["C-c"]) ≤ 1 := by
  unfold gracefulExit
  cases h1 : pollUntil first.start timeout first.steps with
  | none =>
    simp only
    refine ⟨by simp, by simp, by simp, by simp [exitSentBeforeEnter], by simp, by decide⟩
  | some r =>
    obtain ⟨b, n⟩ := r
    cases b with
    | true =>
      simp only
      refine ⟨by simp, by simp, by simp, by simp [exitSentBeforeEnter], by simp, by decide⟩
    | false =>
      simp only
      cases h2 : pollUntil second.start 15000000000 second.steps with
      | none =>
        simp only
        refine ⟨by simp, by simp, by simp, by simp [exitSentBeforeEnter], ?_, by decide⟩
        exact ⟨_, rfl⟩
      | some r2 =>
        simp only
        refine ⟨by simp, by simp, by simp, by simp [exitSentBeforeEnter], ?_, by decide⟩
        exact ⟨_, rfl⟩

/-- The value waitForSignal returns is the outcome of the first poll that has one. -/
theorem waitForSignal_eq_some_iff (start timeout : Int) (polls : List PollObs) (r : Int) :
    waitForSignal start timeout polls = some r ↔
      ∃ pre o post, polls = pre ++ o :: post ∧
        (∀ q ∈ pre, pollOnce (start + timeout) q = none) ∧
        pollOnce (start + timeout) o = some r := by
  induction polls with
  | nil =>
    simp only [waitForSignal]
    constructor
    · intro h
      cases h
    · rintro ⟨pre, o, post, h, _⟩
      cases pre <;> cases h
  | cons p ps ih =>
    simp only [waitForSignal]
    cases hp : pollOnce (start + timeout) p with
    | some v =>
      simp only [Option.some.injEq]
      constructor
      · rintro rfl
        exact ⟨[], p, ps, rfl, by simp, hp⟩
      · rintro ⟨pre, o, post, h, hpre, ho⟩
        cases pre with
        | nil =>
          simp only [List.nil_append, List.cons.injEq] at h
          rw [← h.1, hp] at ho
          exact Option.some.inj ho
        | cons a pre1 =>
          simp only [List.cons_append, List.cons.injEq] at h
          have := hpre a (List.mem_cons_self a pre1)
          rw [← h.1, hp] at this
          cases this
    | none =>
      simp only
      rw [ih]
      constructor
      · rintro ⟨pre, o, post, h, hpre, ho⟩
        refine ⟨p :: pre, o, post, by rw [h]; rfl, ?_, ho⟩
        intro q hq
        rcases List.mem_cons.mp hq with rfl | hq
        · exact hp
        · exact hpre q hq
      · rintro ⟨pre, o, post, h, hpre, ho⟩
        cases pre with
        | nil =>
          simp only [List.nil_append, List.cons.injEq] at h
          rw [← h.1, hp] at ho
          cases ho
        | cons a pre1 =>
          simp only [List.cons_append, List.cons.injEq] at h
          exact ⟨pre1, o, post, h.2, fun q hq => hpre q (List.mem_cons_of_mem a hq), ho⟩

/-- C16: waitForSignal returns 0 only from a poll iteration whose two handoff-file checks
both succeeded, and 1 only from an iteration whose two idle-prompt checks both succeeded
(every earlier iteration having ended without outcome); an iteration in which neither
condition is confirmed acts as one in which nothing was observed, so a single unconfirmed
observation does not end the wait; a failed os.Stat or pane capture counts as the
condition not being met. -/
theorem waitForSignal_double_confirmation (start timeout : Int) (polls : List PollObs) :
    (waitForSignal start timeout polls = some 0 →
      ∃ pre o post, polls = pre ++ o :: post ∧
        (∀ q ∈ pre, pollOnce (start + timeout) q = none) ∧
        o.fileFirst = true ∧ o.fileAgain = true) ∧
    (waitForSignal start timeout polls = some 1 →
      ∃ pre o post, polls = pre ++ o :: post ∧
        (∀ q ∈ pre, pollOnce (start + timeout) q = none) ∧
        o.idleFirst = true ∧ o.idleAgain = true) ∧
    (∀ (deadline : Int) (o : PollObs), ¬ (o.fileFirst = true ∧ o.fileAgain = true) →
      ¬ (o.idleFirst = true ∧ o.idleAgain = true) →
      pollOnce deadline o = pollOnce deadline ⟨false, false, false, false, o.now⟩ ∧
      pollOnce deadline o ≠ some 0 ∧ pollOnce deadline o ≠ some 1 ∧
      (¬ o.now > deadline → pollOnce deadline o = none)) ∧
    (pollOnce 10 ⟨true, false, false, false, 3⟩ = none ∧
      pollOnce 10 ⟨false, false, true, false, 3⟩ = none ∧
      waitForSignal 0 10 [⟨true, false, true, false, 3⟩, ⟨false, true, false, true, 5⟩] = none) ∧
    (fileExists StatResult.failed = false ∧ isShellPrompt none = false ∧
      ∀ now, (PollRaw.observe ⟨StatResult.failed, StatResult.failed, none, none, now⟩) =
        ⟨false, false, false, false, now⟩) := by
  refine ⟨?_, ?_, ?_, by decide, ⟨rfl, by decide, ?_⟩⟩
  · intro h
    obtain ⟨pre, o, post, h1, h2, h3⟩ := (waitForSignal_eq_some_iff _ _ _ _).mp h
    refine ⟨pre, o, post, h1, h2, ?_⟩
    simp only [pollOnce] at h3
    split_ifs at h3 with ha hb hc
    · exact ha
    · simp at h3
    · simp at h3
  · intro h
    obtain ⟨pre, o, post, h1, h2, h3⟩ := (waitForSignal_eq_some_iff _ _ _ _).mp h
    refine ⟨pre, o, post, h1, h2, ?_⟩
    simp only [pollOnce] at h3
    split_ifs at h3 with ha hb hc
    · simp at h3
    · exact hb
    · simp at h3
  · intro deadline o hf hi
    have e : pollOnce deadline o = if o.now > deadline then some 2 else none := by
      simp only [pollOnce, hf, hi, if_false]
    refine ⟨?_, ?_, ?_, ?_⟩
    · rw [e]
      simp [pollOnce]
    · rw [e]
      split_ifs <;> simp
    · rw [e]
      split_ifs <;> simp
    · intro hd
      rw [e, if_neg hd]
  · intro now
    have h : isShellPrompt none = false := by decide
    simp only [PollRaw.observe, fileExists, h]

/-- The handoff path of a session is never the empty string. -/
theorem handoffPathOf_ne_empty (o : TTYObs) : handoffPathOf o ≠ "" := by
  intro h
  have := congrArg String.length h
  simp only [handoffPathOf, String.length_append] at this
  have h3 : (".md" : String).length = 3 := by decide
  have h0 : ("" : String).length = 0 := by decide
  omega

/-- A pass of the session loop of runTTY sends at most one prompt, the one selected by
`ttyPrompt`; when the pass reaches the end of the loop body the prompt was sent and the
handoff path of the pass is recorded as predecessor. -/
theorem ttySession_prompts (cfg : Config) (i : Nat) (st : TTYState) (o : TTYObs) :
    ((ttySession cfg i st o).2.prompts = st.prompts ∨
      (ttySession cfg i st o).2.prompts =
        st.prompts ++ [ttyPrompt cfg i st.prevHandoffPath o.env]) ∧
    ((ttySession cfg i st o).1 = Flow.next →
      (ttySession cfg i st o).2.prompts =
        st.prompts ++ [ttyPrompt cfg i st.prevHandoffPath o.env] ∧
      (ttySession cfg i st o).2.prevHandoffPath = handoffPathOf o) := by
  unfold ttySession
  simp only
  cases hsp : o.spFileOk with
  | false => simp
  | true =>
    cases hcr : o.claudeReady with
    | false => simp
    | true =>
      simp only [Bool.true_eq_false, if_false]
      cases hw : waitForSignal o.start (sessionTimeoutDuration cfg.SessionTimeout) o.polls with
      | none => simp
      | some signal =>
        simp only
        rcases waitForSignal_range _ _ _ _ hw with h | h | h <;> subst h <;>
          cases hf : o.fileAfter <;>
          by_cases hr : reachedMax cfg i <;>
          simp [ttySwitch, ttyRecordHandoff, hf, hr]

/-- Loop invariant of runTTY for the prompts: entered at an index of 2 or more with the
predecessor path recorded, the loop appends continuation prompts as specified. -/
theorem sessionLoop_prompts (cfg : Config) (rest : List TTYObs) :
    ∀ (i : Nat) (st : TTYState) (prev : TTYObs), 2 ≤ i →
      st.prevHandoffPath = handoffPathOf prev →
      ∃ n, (sessionLoop cfg i st rest).state.prompts =
        st.prompts ++ (ttyContinuationPrompts cfg i prev rest).take n := by
  induction rest with
  | nil =>
    intro i st prev _ _
    refine ⟨0, ?_⟩
    rw [sessionLoop.eq_1]
    split_ifs <;> simp
  | cons o rest ih =>
    intro i st prev hi hprev
    rw [sessionLoop.eq_2]
    split_ifs with hc
    · have hp : ttyPrompt cfg i st.prevHandoffPath o.env =
          buildContinuationPrompt o.env i cfg.Task (handoffPathOf prev) := by
        unfold ttyPrompt
        have h1 : ¬ (i = 1 ∨ st.prevHandoffPath = "") := by
          rintro (h | h)
          · omega
          · rw [hprev] at h
            exact handoffPathOf_ne_empty prev h
        rw [if_neg h1, hprev]
      obtain ⟨hor, hnext⟩ := ttySession_prompts cfg i st o
      rw [hp] at hor hnext
      have hshort : ∃ n, (ttySession cfg i st o).2.prompts =
          st.prompts ++ (ttyContinuationPrompts cfg i prev (o :: rest)).take n := by
        rcases hor with h | h
        · exact ⟨0, by rw [h]; simp⟩
        · exact ⟨1, by rw [h]; simp [ttyContinuationPrompts]⟩
      cases hq : ttySession cfg i st o with
      | mk fl st1 =>
        rw [hq] at hnext hshort
        simp only at hnext hshort
        cases fl with
        | next =>
          obtain ⟨h1, h2⟩ := hnext rfl
          obtain ⟨n, hn⟩ := ih (i + 1) st1 o (by omega) h2
          refine ⟨n + 1, ?_⟩
          simp only
          rw [hn, h1]
          simp [ttyContinuationPrompts]
        | brk => exact hshort
        | waiting => exact hshort
    · exact ⟨0, by simp⟩

/-- Loop invariant of runTTY for the number of prompts: every session before the last
one started has sent its prompt, so the k-th prompt sent is the prompt of session k. -/
theorem sessionLoop_prompt_count (cfg : Config) (rest : List TTYObs) :
    ∀ (i : Nat) (st : TTYState), st.prompts.length + 1 = i → st.lastSession + 1 = i →
      (sessionLoop cfg i st rest).state.prompts.length ≤
          (sessionLoop cfg i st rest).state.lastSession ∧
        (sessionLoop cfg i st rest).state.lastSession ≤
          (sessionLoop cfg i st rest).state.prompts.length + 1 := by
  induction rest with
  | nil =>
    intro i st h1 h2
    rw [sessionLoop.eq_1]
    split_ifs <;> simp only <;> omega
  | cons o rest ih =>
    intro i st h1 h2
    rw [sessionLoop.eq_2]
    split_ifs with hc
    · obtain ⟨hor, hnext⟩ := ttySession_prompts cfg i st o
      have hl := ttySession_lastSession cfg i st o
      have hlen : (ttySession cfg i st o).2.prompts.length ≤ st.prompts.length + 1 ∧
          st.prompts.length ≤ (ttySession cfg i st o).2.prompts.length := by
        rcases hor with h3 | h3 <;> rw [h3] <;> simp
      cases hq : ttySession cfg i st o with
      | mk fl st1 =>
        rw [hq] at hnext hl hlen
        simp only at hnext hl hlen
        cases fl with
        | next =>
          have h3 := (hnext rfl).1
          refine ih (i + 1) st1 ?_ (by omega)
          rw [h3, List.length_append, List.length_singleton]
          omega
        | brk =>
          simp only
          omega
        | waiting =>
          simp only
          omega
    · simp only
      omega

/-- A pass of the loop of runPipe sends the prompt selected by `pipePrompt` and leaves
the session's result as the context. -/
theorem pipeSession_prompts (cfg : Config) (i : Nat) (st : PipeState) (o : PipeObs) :
    (pipeSession cfg i st o).2.prompts = st.prompts ++ [pipePrompt cfg i st.context o.env] ∧
    (pipeSession cfg i st o).2.context = o.result := by
  unfold pipeSession
  simp only
  split_ifs <;> exact ⟨rfl, rfl⟩

/-- Loop invariant of runPipe for the prompts: entered at an index of 2 or more with the
previous result as context, the loop appends one continuation prompt, as specified, per
session. -/
theorem pipeLoop_prompts (cfg : Config) (rest : List PipeObs) :
    ∀ (i : Nat) (st : PipeState) (prev : PipeObs), 2 ≤ i → st.sessionCount + 1 = i →
      st.context = prev.result →
      ∃ n, (pipeLoop cfg i st rest).state.sessionCount = st.sessionCount + n ∧
        (pipeLoop cfg i st rest).state.prompts =
          st.prompts ++ (pipeContinuationPrompts cfg i prev rest).take n := by
  induction rest with
  | nil =>
    intro i st prev _ _ _
    refine ⟨0, ?_⟩
    rw [pipeLoop.eq_1]
    split_ifs <;> simp
  | cons o rest ih =>
    intro i st prev hi hcnt hctx
    rw [pipeLoop.eq_2]
    split_ifs with hc
    · have hp : pipePrompt cfg i st.context o.env =
          buildContinuationPrompt o.env i cfg.Task prev.result ++ "\n\n" ++ pipeSystemPrompt := by
        unfold pipePrompt
        have h1 : ¬ i = 1 := by omega
        rw [if_neg h1, hctx]
      obtain ⟨hpr, hcx⟩ := pipeSession_prompts cfg i st o
      obtain ⟨hsc, _⟩ := pipeSession_trace cfg i st o
      rw [hp] at hpr
      have hone : (pipeSession cfg i st o).2.sessionCount = st.sessionCount + 1 ∧
          (pipeSession cfg i st o).2.prompts =
            st.prompts ++ (pipeContinuationPrompts cfg i prev (o :: rest)).take 1 := by
        refine ⟨by rw [hsc]; omega, ?_⟩
        rw [hpr]
        simp [pipeContinuationPrompts]
      cases hq : pipeSession cfg i st o with
      | mk fl st1 =>
        rw [hq] at hpr hcx hsc hone
        simp only at hpr hcx hsc hone
        cases fl with
        | next =>
          obtain ⟨n, hn1, hn2⟩ := ih (i + 1) st1 o (by omega) (by omega) hcx
          refine ⟨n + 1, ?_, ?_⟩
          · simp only
            rw [hn1]
            omega
          · simp only
            rw [hn2, hpr]
            simp [pipeContinuationPrompts]
        | brk => exact ⟨1, hone⟩
        | waiting => exact ⟨1, hone⟩
    · exact ⟨0, by simp⟩

/-- C14: in runTTY the prompts sent are, in order, an initial part of the specified
sequence (only the last session started may have sent none), which is the task text for
session 1 and, for each later session i,
buildContinuationPrompt(i, task, p) with p the handoff path registered for session i-1; a
pass that lets the loop go on has recorded its own non-empty path as predecessor, so the
bare-task fallback is not taken from session 2 on. In runPipe the prompts are the first
sessionCount of the specified sequence, in which the handoff source of session i is the
result text of session i-1. -/
theorem prompt_selection (cfg : Config) (tw : List TTYObs) (pw : List PipeObs) :
    (∃ n, (runTTY cfg tw).state.prompts = (ttyExpectedPrompts cfg tw).take n) ∧
    ((runTTY cfg tw).state.prompts.length ≤ (runTTY cfg tw).state.lastSession ∧
      (runTTY cfg tw).state.lastSession ≤ (runTTY cfg tw).state.prompts.length + 1) ∧
    (∀ (i : Nat) (st : TTYState) (o : TTYObs), (ttySession cfg i st o).1 = Flow.next →
      (ttySession cfg i st o).2.prevHandoffPath = handoffPathOf o ∧ handoffPathOf o ≠ "") ∧
    (∀ (i : Nat) (prev : TTYObs) (env : PromptEnv), 2 ≤ i →
      ttyPrompt cfg i (handoffPathOf prev) env =
        buildContinuationPrompt env i cfg.Task (handoffPathOf prev)) ∧
    (∀ (prevPath : String) (env : PromptEnv), ttyPrompt cfg 1 prevPath env = cfg.Task) ∧
    (runPipe cfg pw).state.prompts =
      (pipeExpectedPrompts cfg pw).take (runPipe cfg pw).state.sessionCount := by
  refine ⟨?_, sessionLoop_prompt_count cfg tw 1 ⟨"", 0, [], []⟩ rfl rfl, ?_, ?_, ?_, ?_⟩
  · unfold runTTY
    cases tw with
    | nil =>
      refine ⟨0, ?_⟩
      rw [sessionLoop.eq_1]
      split_ifs <;> simp
    | cons o rest =>
      rw [sessionLoop.eq_2]
      split_ifs with hc
      · obtain ⟨hor, hnext⟩ := ttySession_prompts cfg 1 ⟨"", 0, [], []⟩ o
        have hp : ttyPrompt cfg 1 "" o.env = cfg.Task := by simp [ttyPrompt]
        simp only [hp, List.nil_append] at hor hnext
        have hshort : ∃ n, (ttySession cfg 1 ⟨"", 0, [], []⟩ o).2.prompts =
            (ttyExpectedPrompts cfg (o :: rest)).take n := by
          rcases hor with h | h
          · exact ⟨0, by rw [h]; simp⟩
          · exact ⟨1, by rw [h]; simp [ttyExpectedPrompts]⟩
        cases hq : ttySession cfg 1 ⟨"", 0, [], []⟩ o with
        | mk fl st1 =>
          rw [hq] at hnext hshort
          simp only at hnext hshort
          cases fl with
          | next =>
            obtain ⟨h1, h2⟩ := hnext rfl
            obtain ⟨n, hn⟩ := sessionLoop_prompts cfg rest 2 st1 o (le_refl 2) h2
            refine ⟨n + 1, ?_⟩
            simp only
            rw [hn, h1]
            simp [ttyExpectedPrompts]
          | brk => exact hshort
          | waiting => exact hshort
      · exact ⟨0, by simp⟩
  · intro i st o h
    exact ⟨((ttySession_prompts cfg i st o).2 h).2, handoffPathOf_ne_empty o⟩
  · intro i prev env hi
    unfold ttyPrompt
    have h1 : ¬ (i = 1 ∨ handoffPathOf prev = "") := by
      rintro (h | h)
      · omega
      · exact handoffPathOf_ne_empty prev h
    rw [if_neg h1]
  · intro prevPath env
    simp [ttyPrompt]
  · unfold runPipe
    cases pw with
    | nil =>
      rw [pipeLoop.eq_1]
      split_ifs <;> simp
    | cons o rest =>
      rw [pipeLoop.eq_2]
      split_ifs with hc
      · obtain ⟨hpr, hcx⟩ := pipeSession_prompts cfg 1 ⟨0, 0, 0, 0, "", [], [], []⟩ o
        obtain ⟨hsc, _⟩ := pipeSession_trace cfg 1 ⟨0, 0, 0, 0, "", [], [], []⟩ o
        have hp : pipePrompt cfg 1 "" o.env = cfg.Task ++ "\n\n" ++ pipeSystemPrompt := by
          simp [pipePrompt]
        simp only [hp, List.nil_append] at hpr
        cases hq : pipeSession cfg 1 ⟨0, 0, 0, 0, "", [], [], []⟩ o with
        | mk fl st1 =>
          rw [hq] at hpr hcx hsc
          simp only at hpr hcx hsc
          cases fl with
          | next =>
            obtain ⟨n, hn1, hn2⟩ := pipeLoop_prompts cfg rest 2 st1 o (le_refl 2)
              (by omega) hcx
            simp only
            rw [hn1, hn2, hpr, hsc]
            simp [pipeExpectedPrompts, Nat.add_comm]
          | brk =>
            simp only
            rw [hpr, hsc]
            simp [pipeExpectedPrompts]
          | waiting =>
            simp only
            rw [hpr, hsc]
            simp [pipeExpectedPrompts]
      · simp

/-- Effect of one scanned line on the result text and on the tool counter. -/
theorem scanLine_effect (unmarshal : String → Option (List (String × Value)))
    (acc : String × sessionStats) (line : String) :
    (scanLine unmarshal acc line).1 = (resultTextOf unmarshal line).getD acc.1 ∧
    (scanLine unmarshal acc line).2.toolUseCount =
      if isToolUseLine unmarshal line = true then wrapInt64 (acc.2.toolUseCount + 1)
      else acc.2.toolUseCount := by
  unfold scanLine resultTextOf isToolUseLine decodeLine
  by_cases hl : line = ""
  · simp [hl]
  · simp only [hl, if_false]
    cases hu : unmarshal line with
    | none => simp
    | some raw =>
      simp only
      have het : (match mapIndex raw "type" with
          | Value.string t => t
          | _ => "") = eventTypeOf raw := rfl
      rw [het]
      by_cases h1 : eventTypeOf raw = "assistant"
      · simp [h1]
      · by_cases h2 : eventTypeOf raw = "tool_use"
        · simp [h2]
        · by_cases h3 : eventTypeOf raw = "result"
          · simp only [h3, if_true, if_false, h1, h2]
            constructor
            · cases mapIndex raw "result" <;> simp
            · have hne : ¬ ("result" = "assistant") := by decide
              have hne2 : ¬ ("result" = "tool_use") := by decide
              simp only [hne, hne2, if_false, decide_False, Bool.false_eq_true]
              cases mapIndex raw "cost_usd" <;> cases mapIndex raw "usage" <;> simp only <;>
                try rfl
              all_goals
                rename_i usage
                cases mapIndex usage "input_tokens" <;>
                  cases mapIndex usage "output_tokens" <;> rfl
          · simp [h1, h2, h3]

/-- A line that is empty, is not a JSON object, or is an event whose type is neither
"tool_use" nor "result" leaves the pair of result and statistics as it was. -/
theorem scanLine_ignores (unmarshal : String → Option (List (String × Value)))
    (acc : String × sessionStats) (line : String)
    (h : line = "" ∨ unmarshal line = none ∨
      ∃ raw, unmarshal line = some raw ∧ eventTypeOf raw ≠ "tool_use" ∧
        eventTypeOf raw ≠ "result") :
    scanLine unmarshal acc line = acc := by
  unfold scanLine
  rcases h with h | h | ⟨raw, h, h2, h3⟩
  · simp [h]
  · by_cases hl : line = ""
    · simp [hl]
    · simp [hl, h]
  · by_cases hl : line = ""
    · simp [hl]
    · simp only [hl, if_false, h]
      have het : (match mapIndex raw "type" with
          | Value.string t => t
          | _ => "") = eventTypeOf raw := rfl
      rw [het]
      simp [h2, h3]

/-- The fold of the scan loop: the tool counter grows by the number of tool_use lines (on
a 64-bit int) and the result is the last result text seen, the entry value if none. -/
theorem scan_fold (unmarshal : String → Option (List (String × Value))) (lines : List String) :
    ∀ acc : String × sessionStats, inInt64 acc.2.toolUseCount →
      (lines.foldl (scanLine unmarshal) acc).1 =
        ((lines.filterMap (resultTextOf unmarshal)).getLast?).getD acc.1 ∧
      (lines.foldl (scanLine unmarshal) acc).2.toolUseCount =
        wrapInt64 (acc.2.toolUseCount + (lines.countP (isToolUseLine unmarshal) : Nat)) := by
  induction lines with
  | nil =>
    intro acc hacc
    simp [wrapInt64_of_inInt64 _ hacc]
  | cons line rest ih =>
    intro acc hacc
    obtain ⟨h1, h2⟩ := scanLine_effect unmarshal acc line
    have hin : inInt64 (scanLine unmarshal acc line).2.toolUseCount := by
      rw [h2]
      split_ifs
      · unfold inInt64 wrapInt64
        omega
      · exact hacc
    obtain ⟨i1, i2⟩ := ih (scanLine unmarshal acc line) hin
    rw [List.foldl_cons]
    refine ⟨?_, ?_⟩
    · rw [i1, h1]
      cases hr : resultTextOf unmarshal line with
      | none => simp [List.filterMap_cons_none hr]
      | some r =>
        rw [List.filterMap_cons_some hr, List.getLast?_cons]
        simp
    · rw [i2, h2, List.countP_cons]
      by_cases ht : isToolUseLine unmarshal line = true
      · simp only [ht, if_true]
        rw [wrapInt64_add_wrap]
        congr 1
        push_cast
        omega
      · simp only [ht, if_false]
        simp

/-- The scanner yields no more lines than the output has. -/
theorem scannerLines_length_le (lines : List String) :
    (scannerLines lines).length ≤ lines.length := by
  unfold scannerLines
  rw [List.length_map]
  exact (List.takeWhile_sublist _).length_le

/-- The scanner stops in front of the first line that does not fit its buffer. -/
theorem scannerLines_cut (pre post : List String) (long : String)
    (hpre : ∀ l ∈ pre, l.utf8ByteSize < scannerBufferSize)
    (hlong : ¬ long.utf8ByteSize < scannerBufferSize) :
    scannerLines (pre ++ long :: post) = pre.map dropCR := by
  unfold scannerLines
  congr 1
  induction pre with
  | nil => simp [List.takeWhile, hlong]
  | cons a rest ih =>
    have ha : a.utf8ByteSize < scannerBufferSize := hpre a (List.mem_cons_self _ _)
    have hr : ∀ l ∈ rest, l.utf8ByteSize < scannerBufferSize :=
      fun l hl => hpre l (List.mem_cons_of_mem _ hl)
    rw [List.cons_append, List.takeWhile_cons]
    simp only [ha, decide_True, if_true]
    rw [ih hr]

/-- The scanner yields every line when each fits its buffer. -/
theorem scannerLines_all (lines : List String)
    (h : ∀ l ∈ lines, l.utf8ByteSize < scannerBufferSize) :
    scannerLines lines = lines.map dropCR := by
  unfold scannerLines
  congr 1
  rw [List.takeWhile_eq_self_iff]
  intro l hl
  simpa using h l hl

/-- The byte length of a line made of one ASCII letter repeated. -/
theorem utf8ByteSize_replicate (n : Nat) :
    (String.mk (List.replicate n 'x')).utf8ByteSize = n := by
  induction n with
  | zero => rfl
  | succ k ih =>
    have e : (String.mk (List.replicate (k + 1) 'x')).utf8ByteSize =
        (String.mk (List.replicate k 'x')).utf8ByteSize + 1 := rfl
    rw [e, ih]

/-- C17: for every finite sequence of output lines of fewer than 2^63 lines that the
subprocess writes before it closes its output, runPipeSession folds the lines the scanner
yields: the lines in front of the first one of 1048576 bytes or more, each without one
trailing carriage return. The returned toolUseCount is the number of those lines that
parse as a JSON object of type "tool_use", and the returned result is the "result" string
of the last "result" event among them that carries a string there, the empty string when
there is none; empty lines, lines that are not JSON objects, "assistant" events and
events of any other type change neither the result nor the statistics. When every line
is shorter than 1048576 bytes all of them are folded; a line of that length or more and
all lines after it are not read. -/
theorem runPipeSession_fold (unmarshal : String → Option (List (String × Value)))
    (lines : List String) (hlen : lines.length < 9223372036854775808) :
    (runPipeSession unmarshal (PipeProc.started lines)).2.toolUseCount =
      ((scannerLines lines).countP (isToolUseLine unmarshal) : Nat) ∧
    (runPipeSession unmarshal (PipeProc.started lines)).1 =
      (((scannerLines lines).filterMap (resultTextOf unmarshal)).getLast?).getD "" ∧
    (∀ (acc : String × sessionStats) (line : String),
      (line = "" ∨ unmarshal line = none ∨
        ∃ raw, unmarshal line = some raw ∧ eventTypeOf raw ≠ "tool_use" ∧
          eventTypeOf raw ≠ "result") →
      scanLine unmarshal acc line = acc) ∧
    ((∀ l ∈ lines, l.utf8ByteSize < 1048576) → scannerLines lines = lines.map dropCR) ∧
    (∀ (pre post : List String) (long : String), lines = pre ++ long :: post →
      (∀ l ∈ pre, l.utf8ByteSize < 1048576) → ¬ long.utf8ByteSize < 1048576 →
      scannerLines lines = pre.map dropCR) := by
  obtain ⟨h1, h2⟩ := scan_fold unmarshal (scannerLines lines) ("", zeroStats) (by decide)
  refine ⟨?_, h1, fun acc line h => scanLine_ignores unmarshal acc line h,
    fun h => scannerLines_all lines h, ?_⟩
  · simp only [runPipeSession]
    rw [h2]
    have hc : (scannerLines lines).countP (isToolUseLine unmarshal) ≤
        (scannerLines lines).length := List.countP_le_length _
    have hl : (scannerLines lines).length ≤ lines.length := scannerLines_length_le lines
    have h0 : zeroStats.toolUseCount = 0 := rfl
    simp only [h0, Int.zero_add]
    apply wrapInt64_of_inInt64
    unfold inInt64
    omega
  · intro pre post long he hpre hlong
    rw [he]
    exact scannerLines_cut pre post long hpre hlong

/-- C17 (counterexample): the output is a line of 1048576 bytes followed by a tool_use
event and a result event with text. One line parses as a tool_use event and the last
result event carries "## Q0: done", yet runPipeSession returns the tool counter 0 and the
empty result: the scanner stopped at the first line. -/
theorem runPipeSession_stops_at_long_line :
    cutStream.countP (isToolUseLine exampleUnmarshal) = 1 ∧
    ((cutStream.filterMap (resultTextOf exampleUnmarshal)).getLast?).getD "" =
      "## Q0: done" ∧
    (runPipeSession exampleUnmarshal (PipeProc.started cutStream)).2.toolUseCount = 0 ∧
    (runPipeSession exampleUnmarshal (PipeProc.started cutStream)).1 = "" := by
  have hlong : ¬ oversizedLine.utf8ByteSize < scannerBufferSize := by
    unfold oversizedLine
    rw [utf8ByteSize_replicate]
    decide
  have hs : scannerLines cutStream = [] :=
    scannerLines_cut [] _ oversizedLine (fun _ h => by cases h) hlong
  have hrun : runPipeSession exampleUnmarshal (PipeProc.started cutStream) =
      ("", zeroStats) := by
    simp only [runPipeSession, hs, List.foldl_nil]
  refine ⟨by decide, by decide, ?_, ?_⟩
  · rw [hrun]
    rfl
  · rw [hrun]

/-- C20: hasHookCommand(eventVal, cmd) is true exactly when eventVal is an array holding
an object whose "hooks" field is an array holding an object whose "command" field is the
string cmd; it is a total function, false for nil, for an empty array, for arrays of
non-objects and when only other commands are present. -/
theorem hasHookCommand_iff (eventVal : Value) (cmd : String) :
    (hasHookCommand eventVal cmd = true ↔
      ∃ entries, eventVal = Value.slice entries ∧
        ∃ e, Value.map e ∈ entries ∧
          ∃ innerHooks, mapIndex e "hooks" = Value.slice innerHooks ∧
            ∃ hm, Value.map hm ∈ innerHooks ∧ mapIndex hm "command" = Value.string cmd) ∧
    (hasHookCommand Value.nil hookCmd = false ∧
      hasHookCommand (Value.slice []) hookCmd = false ∧
      hasHookCommand (Value.slice [Value.string "not a map"]) hookCmd = false ∧
      hasHookCommand (Value.slice [Value.map [("hooks", Value.slice [Value.map
        [("type", Value.string "command"), ("command", Value.string "other-script.sh")]])]])
        hookCmd = false ∧
      hasHookCommand (Value.slice [Value.map [("hooks", Value.slice [Value.map
        [("type", Value.string "command"), ("command", Value.string hookCmd),
          ("timeout", Value.int 10)]])]]) hookCmd = true ∧
      hasHookCommand (Value.slice [
        Value.map [("hooks", Value.slice [Value.map [("command", Value.string "other.sh")]])],
        Value.map [("hooks", Value.slice [Value.map [("command", Value.string hookCmd)]])]])
        hookCmd = true ∧
      hasHookCommand (Value.map [("hooks", Value.string hookCmd)]) hookCmd = false ∧
      hasHookCommand (Value.string hookCmd) hookCmd = false) := by
  refine ⟨?_, by decide⟩
  have hcmd : ∀ h : Value, commandIs cmd h = true ↔
      ∃ hm, h = Value.map hm ∧ mapIndex hm "command" = Value.string cmd := by
    intro h
    cases h with
    | map hm =>
      simp only [commandIs, Value.map.injEq, exists_eq_left']
      cases hc : mapIndex hm "command" <;> simp
    | _ => simp [commandIs]
  have hentry : ∀ entry : Value, entryHasCommand cmd entry = true ↔
      ∃ e, entry = Value.map e ∧ ∃ innerHooks, mapIndex e "hooks" = Value.slice innerHooks ∧
        ∃ hm, Value.map hm ∈ innerHooks ∧ mapIndex hm "command" = Value.string cmd := by
    intro entry
    cases entry with
    | map e =>
      simp only [entryHasCommand, Value.map.injEq, exists_eq_left']
      cases hh : mapIndex e "hooks" with
      | slice inner =>
        simp only [List.any_eq_true, Value.slice.injEq, exists_eq_left']
        constructor
        · rintro ⟨h, hmem, hc⟩
          obtain ⟨hm, rfl, hcm⟩ := (hcmd h).mp hc
          exact ⟨hm, hmem, hcm⟩
        · rintro ⟨hm, hmem, hcm⟩
          exact ⟨Value.map hm, hmem, (hcmd _).mpr ⟨hm, rfl, hcm⟩⟩
      | _ => simp
    | _ => simp [entryHasCommand]
  cases eventVal with
  | slice entries =>
    simp only [hasHookCommand, List.any_eq_true, Value.slice.injEq, exists_eq_left']
    constructor
    · rintro ⟨entry, hmem, hc⟩
      obtain ⟨e, rfl, rest⟩ := (hentry entry).mp hc
      exact ⟨e, hmem, rest⟩
    · rintro ⟨e, hmem, rest⟩
      exact ⟨Value.map e, hmem, (hentry _).mpr ⟨e, rfl, rest⟩⟩
  | _ => simp [hasHookCommand]

/-- Reading the empty map yields nil. -/
theorem mapIndex_nil (k : String) : mapIndex [] k = Value.nil := rfl

/-- Reading a map listed with a first pair: its value under its key, the rest otherwise. -/
theorem mapIndex_cons (k0 : String) (x : Value) (rest : List (String × Value)) (k : String) :
    mapIndex ((k0, x) :: rest) k = if k = k0 then x else mapIndex rest k := by
  unfold mapIndex
  by_cases h : k = k0
  · subst h
    simp [List.lookup]
  · have hb : (k == k0) = false := by simpa using h
    simp [List.lookup, hb, h]

/-- Reading a map after an assignment: the assigned key yields the new value, every other
key what it yielded before. -/
theorem mapIndex_mapSet (m : List (String × Value)) (key : String) (v : Value) (k : String) :
    mapIndex (mapSet m key v) k = if k = key then v else mapIndex m k := by
  induction m with
  | nil => simp only [mapSet, mapIndex_cons, mapIndex_nil]
  | cons kv rest ih =>
    obtain ⟨k0, x⟩ := kv
    by_cases h0 : k0 = key
    · subst h0
      simp only [mapSet, if_true, mapIndex_cons]
      split_ifs <;> rfl
    · simp only [mapSet, h0, if_false, mapIndex_cons, ih]
      by_cases h : k = k0
      · have h1 : ¬ k = key := by rw [h]; exact h0
        simp [h, h0]
      · simp [h]

/-- Reading a map after the JSON round trip yields the round trip of what was there. -/
theorem mapIndex_roundTripFields (m : List (String × Value)) (k : String) :
    mapIndex (roundTripFields m) k = jsonRoundTrip (mapIndex m k) := by
  induction m with
  | nil => simp [roundTripFields, mapIndex_nil, jsonRoundTrip]
  | cons kv rest ih =>
    obtain ⟨k0, x⟩ := kv
    simp only [roundTripFields, mapIndex_cons, ih]
    split_ifs <;> rfl

/-- The round trip of a slice is the slice of the round trips. -/
theorem roundTripList_eq_map (xs : List Value) : roundTripList xs = xs.map jsonRoundTrip := by
  induction xs with
  | nil => rfl
  | cons x xs ih => rw [roundTripList, ih]; rfl

/-- The JSON round trip does not change whether a hook carries the command. -/
theorem commandIs_roundTrip (cmd : String) (h : Value) :
    commandIs cmd (jsonRoundTrip h) = commandIs cmd h := by
  cases h with
  | map hm =>
    simp only [jsonRoundTrip, commandIs, mapIndex_roundTripFields]
    cases mapIndex hm "command" <;> simp [jsonRoundTrip]
  | _ => simp [jsonRoundTrip, commandIs]

/-- The JSON round trip does not change whether an entry carries the command. -/
theorem entryHasCommand_roundTrip (cmd : String) (entry : Value) :
    entryHasCommand cmd (jsonRoundTrip entry) = entryHasCommand cmd entry := by
  cases entry with
  | map e =>
    simp only [jsonRoundTrip, entryHasCommand, mapIndex_roundTripFields]
    cases mapIndex e "hooks" with
    | slice inner =>
      simp only [jsonRoundTrip, roundTripList_eq_map, List.any_map]
      congr 1
      funext h
      exact commandIs_roundTrip cmd h
    | _ => simp [jsonRoundTrip]
  | _ => simp [jsonRoundTrip, entryHasCommand]

/-- The JSON round trip does not change the answer of hasHookCommand. -/
theorem hasHookCommand_roundTrip (v : Value) (cmd : String) :
    hasHookCommand (jsonRoundTrip v) cmd = hasHookCommand v cmd := by
  cases v with
  | slice entries =>
    simp only [jsonRoundTrip, hasHookCommand, roundTripList_eq_map, List.any_map]
    congr 1
    funext e
    exact entryHasCommand_roundTrip cmd e
  | _ => simp [jsonRoundTrip, hasHookCommand]

/-- A value that the JSON round trip leaves unchanged has fields it leaves unchanged. -/
theorem roundTrip_field_of_fixed (m : List (String × Value))
    (h : jsonRoundTrip (Value.map m) = Value.map m) (k : String) :
    jsonRoundTrip (mapIndex m k) = mapIndex m k := by
  have hf : roundTripFields m = m := by
    simp only [jsonRoundTrip, Value.map.injEq] at h
    exact h
  rw [← mapIndex_roundTripFields, hf]

/-- One pass of the event loop of registerHooks: afterwards the event holds the command,
the other keys are untouched, an event that already held the command is left as it was,
and an array found under the event is a prefix of the array left there. -/
theorem registerEvent_spec (hooks : List (String × Value)) (event : String) :
    hasHookCommand (mapIndex (registerEvent hooks event).1 event) hookCmd = true ∧
    (∀ k, k ≠ event → mapIndex (registerEvent hooks event).1 k = mapIndex hooks k) ∧
    (hasHookCommand (mapIndex hooks event) hookCmd = true →
      registerEvent hooks event = (hooks, false)) ∧
    (hasHookCommand (mapIndex hooks event) hookCmd = false →
      (registerEvent hooks event).2 = true) ∧
    (∀ xs, mapIndex hooks event = Value.slice xs →
      mapIndex (registerEvent hooks event).1 event = Value.slice xs ∨
      mapIndex (registerEvent hooks event).1 event = Value.slice (xs ++ [hookEntry0])) ∧
    ((∀ xs, mapIndex hooks event ≠ Value.slice xs) →
      mapIndex (registerEvent hooks event).1 event = Value.slice [hookEntry0]) := by
  have hentry : entryHasCommand hookCmd hookEntry0 = true := by decide
  by_cases hh : hasHookCommand (mapIndex hooks event) hookCmd = true
  · have e : registerEvent hooks event = (hooks, false) := by
      simp [registerEvent, hh]
    rw [e]
    refine ⟨hh, fun k _ => rfl, fun _ => rfl, ?_, fun xs h => Or.inl h, ?_⟩
    · intro h
      rw [hh] at h
      cases h
    · intro hno
      exfalso
      cases hm : mapIndex hooks event with
      | slice xs => exact hno xs hm
      | _ => rw [hm] at hh; simp [hasHookCommand] at hh
  · have e : registerEvent hooks event =
        (mapSet hooks event (Value.slice ((match mapIndex hooks event with
          | Value.slice xs => xs
          | _ => []) ++ [hookEntry0])), true) := by
      simp [registerEvent, hh]
    rw [e]
    simp only
    refine ⟨?_, ?_, fun h => absurd h hh, fun _ => trivial, ?_, ?_⟩
    · rw [mapIndex_mapSet]
      simp [hasHookCommand, hentry]
    · intro k hk
      rw [mapIndex_mapSet, if_neg hk]
    · intro xs hxs
      right
      rw [mapIndex_mapSet]
      simp [hxs]
    · intro hno
      rw [mapIndex_mapSet]
      simp only [if_true]
      cases hm : mapIndex hooks event with
      | slice xs => exact absurd hm (hno xs)
      | _ => simp

/-- On a file that holds a JSON object registerHooks works on the decoded object. -/
theorem registerHooks_object (m : List (String × Value)) (writeOk : Bool) :
    registerHooks (SettingsFile.object m) writeOk =
      registerInto (SettingsFile.object m) m writeOk := rfl

/-- After the two passes of the event loop both events hold the command. -/
theorem registerEvent_both (hooks : List (String × Value)) :
    hasHookCommand (mapIndex (registerEvent (registerEvent hooks "PreToolUse").1
      "PostToolUse").1 "PreToolUse") hookCmd = true ∧
    hasHookCommand (mapIndex (registerEvent (registerEvent hooks "PreToolUse").1
      "PostToolUse").1 "PostToolUse") hookCmd = true := by
  have hpre := (registerEvent_spec hooks "PreToolUse").1
  have hpost := registerEvent_spec (registerEvent hooks "PreToolUse").1 "PostToolUse"
  refine ⟨?_, hpost.1⟩
  rw [hpost.2.1 "PreToolUse" (by decide)]
  exact hpre

/-- When both events already hold the command, registerHooks leaves the file alone. -/
theorem registerInto_unchanged (file : SettingsFile) (settings : List (String × Value))
    (writeOk : Bool)
    (h1 : hasHookCommand (mapIndex (hooksOf settings) "PreToolUse") hookCmd = true)
    (h2 : hasHookCommand (mapIndex (hooksOf settings) "PostToolUse") hookCmd = true) :
    registerInto file settings writeOk = RegisterResult.done file false := by
  have e1 := (registerEvent_spec (hooksOf settings) "PreToolUse").2.2.1 h1
  have e2 := (registerEvent_spec (hooksOf settings) "PostToolUse").2.2.1 h2
  simp [registerInto, e1, e2]

/-- When an event lacks the command, registerHooks writes the settings with the "hooks"
map left by the two passes. -/
theorem registerInto_written (file : SettingsFile) (settings : List (String × Value))
    (h : ¬ (hasHookCommand (mapIndex (hooksOf settings) "PreToolUse") hookCmd = true ∧
      hasHookCommand (mapIndex (hooksOf settings) "PostToolUse") hookCmd = true)) :
    registerInto file settings true =
      RegisterResult.done (SettingsFile.object (roundTripFields (mapSet settings "hooks"
        (Value.map (registerEvent (registerEvent (hooksOf settings) "PreToolUse").1
          "PostToolUse").1)))) true := by
  have hup : ((registerEvent (hooksOf settings) "PreToolUse").2 ||
      (registerEvent (registerEvent (hooksOf settings) "PreToolUse").1 "PostToolUse").2)
      = true := by
    by_cases h1 : hasHookCommand (mapIndex (hooksOf settings) "PreToolUse") hookCmd = true
    · have h2 : hasHookCommand (mapIndex (hooksOf settings) "PostToolUse") hookCmd = false := by
        cases hq : hasHookCommand (mapIndex (hooksOf settings) "PostToolUse") hookCmd with
        | false => rfl
        | true => exact absurd ⟨h1, hq⟩ h
      have e1 := (registerEvent_spec (hooksOf settings) "PreToolUse").2.2.1 h1
      rw [e1]
      simp [(registerEvent_spec (hooksOf settings) "PostToolUse").2.2.2.1 h2]
    · have h1f : hasHookCommand (mapIndex (hooksOf settings) "PreToolUse") hookCmd = false := by
        simpa using h1
      simp [(registerEvent_spec (hooksOf settings) "PreToolUse").2.2.2.1 h1f]
  simp only [registerInto, hup]
  simp

/-- The "hooks" map read back from the settings written with a "hooks" map. -/
theorem hooksOf_written (settings h : List (String × Value)) :
    hooksOf (roundTripFields (mapSet settings "hooks" (Value.map h))) = roundTripFields h := by
  unfold hooksOf
  rw [mapIndex_roundTripFields, mapIndex_mapSet]
  simp [jsonRoundTrip]

/-- A run of registerHooks on a readable state ends with both events holding the command
in the settings file, and a further run leaves that file as it is, unwritten. -/
theorem registerInto_idempotent (file : SettingsFile) (settings : List (String × Value))
    (hfile : registerHooks file true = registerInto file settings true) :
    ∃ f1 w1, registerHooks file true = RegisterResult.done f1 w1 ∧
      (w1 = false → f1 = file) ∧
      ∃ m1, (w1 = true → f1 = SettingsFile.object m1) ∧
        (w1 = false → m1 = settings) ∧
        hasHookCommand (mapIndex (hooksOf m1) "PreToolUse") hookCmd = true ∧
        hasHookCommand (mapIndex (hooksOf m1) "PostToolUse") hookCmd = true ∧
        registerHooks (SettingsFile.object m1) true =
          RegisterResult.done (SettingsFile.object m1) false := by
  rw [hfile]
  by_cases h : hasHookCommand (mapIndex (hooksOf settings) "PreToolUse") hookCmd = true ∧
      hasHookCommand (mapIndex (hooksOf settings) "PostToolUse") hookCmd = true
  · refine ⟨file, false, registerInto_unchanged file settings true h.1 h.2, fun _ => rfl,
      settings, (fun hw => by cases hw), fun _ => rfl, h.1, h.2, ?_⟩
    exact registerInto_unchanged _ settings true h.1 h.2
  · have hb := registerEvent_both (hooksOf settings)
    refine ⟨_, true, registerInto_written file settings h, (fun hw => by cases hw),
      _, fun _ => rfl, (fun hw => by cases hw), ?_, ?_, ?_⟩
    · rw [hooksOf_written, mapIndex_roundTripFields, hasHookCommand_roundTrip]
      exact hb.1
    · rw [hooksOf_written, mapIndex_roundTripFields, hasHookCommand_roundTrip]
      exact hb.2
    · refine registerInto_unchanged _ _ true ?_ ?_
      · rw [hooksOf_written, mapIndex_roundTripFields, hasHookCommand_roundTrip]
        exact hb.1
      · rw [hooksOf_written, mapIndex_roundTripFields, hasHookCommand_roundTrip]
        exact hb.2

/-- C18: for every settings state that is an absent file or a JSON object, a run of
registerHooks (its write succeeding) returns with a settings file in which hasHookCommand
holds for PreToolUse and for PostToolUse, and a second run returns with the same file and
does not write it; starting from no file, the run writes a file in which each of the two
events holds exactly one entry. -/
theorem registerHooks_idempotent (file : SettingsFile)
    (hfile : file = SettingsFile.unreadable ∨ ∃ m, file = SettingsFile.object m) :
    (∃ m1 w1, registerHooks file true = RegisterResult.done (SettingsFile.object m1) w1 ∧
      (w1 = false → file = SettingsFile.object m1) ∧
      hasHookCommand (mapIndex (hooksOf m1) "PreToolUse") hookCmd = true ∧
      hasHookCommand (mapIndex (hooksOf m1) "PostToolUse") hookCmd = true ∧
      registerHooks (SettingsFile.object m1) true =
        RegisterResult.done (SettingsFile.object m1) false) ∧
    (∃ m1, registerHooks SettingsFile.unreadable true =
        RegisterResult.done (SettingsFile.object m1) true ∧
      mapIndex (hooksOf m1) "PreToolUse" = Value.slice [jsonRoundTrip hookEntry0] ∧
      mapIndex (hooksOf m1) "PostToolUse" = Value.slice [jsonRoundTrip hookEntry0] ∧
      registerHooks (SettingsFile.object m1) true =
        RegisterResult.done (SettingsFile.object m1) false) := by
  constructor
  · rcases hfile with h | ⟨m, h⟩
    · subst h
      obtain ⟨f1, w1, h1, h2, m1, h3, h4, h5, h6, h7⟩ :=
        registerInto_idempotent SettingsFile.unreadable [] rfl
      cases w1 with
      | true =>
        rw [h3 rfl] at h1
        exact ⟨m1, true, h1, (fun hw => by cases hw), h5, h6, h7⟩
      | false =>
        exfalso
        have := h4 rfl
        subst this
        revert h5
        decide
    · subst h
      obtain ⟨f1, w1, h1, h2, m1, h3, h4, h5, h6, h7⟩ :=
        registerInto_idempotent (SettingsFile.object m) m rfl
      cases w1 with
      | true =>
        rw [h3 rfl] at h1
        exact ⟨m1, true, h1, (fun hw => by cases hw), h5, h6, h7⟩
      | false =>
        have hm : m1 = m := h4 rfl
        subst hm
        rw [h2 rfl] at h1
        exact ⟨m1, false, h1, fun _ => rfl, h5, h6, h7⟩
  · have hno : ¬ (hasHookCommand (mapIndex (hooksOf []) "PreToolUse") hookCmd = true ∧
        hasHookCommand (mapIndex (hooksOf []) "PostToolUse") hookCmd = true) := by decide
    have hb := registerEvent_both (hooksOf [])
    have hw := registerInto_written SettingsFile.unreadable [] hno
    refine ⟨_, hw, ?_, ?_, ?_⟩
    · rw [hooksOf_written, mapIndex_roundTripFields]
      rfl
    · rw [hooksOf_written, mapIndex_roundTripFields]
      rfl
    · rw [registerHooks_object]
      refine registerInto_unchanged _ _ true ?_ ?_
      · rw [hooksOf_written, mapIndex_roundTripFields, hasHookCommand_roundTrip]
        exact hb.1
      · rw [hooksOf_written, mapIndex_roundTripFields, hasHookCommand_roundTrip]
        exact hb.2

/-- The round trip of an array that extends an array it leaves unchanged extends that
array. -/
theorem roundTrip_slice_append (xs ys : List Value)
    (hx : jsonRoundTrip (Value.slice xs) = Value.slice xs) :
    jsonRoundTrip (Value.slice (xs ++ ys)) = Value.slice (xs ++ roundTripList ys) := by
  simp only [jsonRoundTrip, Value.slice.injEq, roundTripList_eq_map] at hx ⊢
  rw [List.map_append, hx]

/-- C19: for every settings file holding a JSON object (given as the value it decodes to,
which the JSON round trip leaves unchanged), registerHooks returns with a file in which
every top-level key other than "hooks" has its original value; when "hooks" was an object
it still is one, each of its keys other than PreToolUse and PostToolUse has its original
value, and an array found under PreToolUse or PostToolUse is a prefix of the array left
there. -/
theorem registerHooks_preserves (m : List (String × Value))
    (hdec : jsonRoundTrip (Value.map m) = Value.map m) :
    ∃ m1 w, registerHooks (SettingsFile.object m) true =
        RegisterResult.done (SettingsFile.object m1) w ∧
      (∀ k, k ≠ "hooks" → mapIndex m1 k = mapIndex m k) ∧
      (∀ h, mapIndex m "hooks" = Value.map h →
        ∃ h1, mapIndex m1 "hooks" = Value.map h1 ∧
          (∀ k, k ≠ "PreToolUse" → k ≠ "PostToolUse" → mapIndex h1 k = mapIndex h k) ∧
          (∀ ev xs, ev = "PreToolUse" ∨ ev = "PostToolUse" → mapIndex h ev = Value.slice xs →
            ∃ ys, mapIndex h1 ev = Value.slice (xs ++ ys))) := by
  rw [registerHooks_object]
  by_cases hb : hasHookCommand (mapIndex (hooksOf m) "PreToolUse") hookCmd = true ∧
      hasHookCommand (mapIndex (hooksOf m) "PostToolUse") hookCmd = true
  · refine ⟨m, false, registerInto_unchanged _ m true hb.1 hb.2, fun k _ => rfl, ?_⟩
    intro h hh
    exact ⟨h, hh, fun k _ _ => rfl, fun ev xs _ hx => ⟨[], by rw [hx, List.append_nil]⟩⟩
  · refine ⟨_, true, registerInto_written _ m hb, ?_, ?_⟩
    · intro k hk
      rw [mapIndex_roundTripFields, mapIndex_mapSet, if_neg hk]
      exact roundTrip_field_of_fixed m hdec k
    · intro h hh
      have hof : hooksOf m = h := by
        unfold hooksOf
        rw [hh]
      have hhdec : jsonRoundTrip (Value.map h) = Value.map h := by
        have := roundTrip_field_of_fixed m hdec "hooks"
        rw [hh] at this
        exact this
      have hpre := registerEvent_spec h "PreToolUse"
      have hpost := registerEvent_spec (registerEvent h "PreToolUse").1 "PostToolUse"
      rw [hof]
      refine ⟨roundTripFields (registerEvent (registerEvent h "PreToolUse").1
        "PostToolUse").1, ?_, ?_, ?_⟩
      · rw [mapIndex_roundTripFields, mapIndex_mapSet]
        simp [jsonRoundTrip]
      · intro k hk1 hk2
        rw [mapIndex_roundTripFields, hpost.2.1 k hk2, hpre.2.1 k hk1]
        exact roundTrip_field_of_fixed h hhdec k
      · intro ev xs hev hxs
        have hxdec : jsonRoundTrip (Value.slice xs) = Value.slice xs := by
          have := roundTrip_field_of_fixed h hhdec ev
          rw [hxs] at this
          exact this
        rw [mapIndex_roundTripFields]
        rcases hev with rfl | rfl
        · rw [hpost.2.1 "PreToolUse" (by decide)]
          rcases hpre.2.2.2.2.1 xs hxs with h1 | h1
          · exact ⟨[], by rw [h1, hxdec, List.append_nil]⟩
          · exact ⟨_, by rw [h1, roundTrip_slice_append xs _ hxdec]⟩
        · have hxs1 : mapIndex (registerEvent h "PreToolUse").1 "PostToolUse" =
              Value.slice xs := by
            rw [hpre.2.1 "PostToolUse" (by decide), hxs]
          rcases hpost.2.2.2.2.1 xs hxs1 with h1 | h1
          · exact ⟨[], by rw [h1, hxdec, List.append_nil]⟩
          · exact ⟨_, by rw [h1, roundTrip_slice_append xs _ hxdec]⟩

/-- C17 (witness): every line of the example stream fits the scanner, so all of them are
folded: the tool counter is the number of tool_use lines, 2, and the result is the text
of the last result event that carries a string. -/
theorem runPipeSession_fold_witness :
    scannerLines exampleStream = exampleStream ∧
    (runPipeSession exampleUnmarshal (PipeProc.started exampleStream)).2.toolUseCount =
      ((scannerLines exampleStream).countP (isToolUseLine exampleUnmarshal) : Nat) ∧
    (scannerLines exampleStream).countP (isToolUseLine exampleUnmarshal) = 2 ∧
    (runPipeSession exampleUnmarshal (PipeProc.started exampleStream)).1 =
      (((scannerLines exampleStream).filterMap (resultTextOf exampleUnmarshal)).getLast?).getD
        "" ∧
    (((scannerLines exampleStream).filterMap (resultTextOf exampleUnmarshal)).getLast?).getD ""
      = "## Q0: done" :=
  ⟨by decide, (runPipeSession_fold exampleUnmarshal exampleStream (by decide)).1, by decide,
    (runPipeSession_fold exampleUnmarshal exampleStream (by decide)).2.1, by decide⟩

/-- C18 (witness): starting from no settings file, registerHooks writes a file that holds
the command under both events, and a second run leaves it unwritten. -/
theorem registerHooks_idempotent_witness :
    ∃ m1 w1, registerHooks SettingsFile.unreadable true =
        RegisterResult.done (SettingsFile.object m1) w1 ∧
      (w1 = false → SettingsFile.unreadable = SettingsFile.object m1) ∧
      hasHookCommand (mapIndex (hooksOf m1) "PreToolUse") hookCmd = true ∧
      hasHookCommand (mapIndex (hooksOf m1) "PostToolUse") hookCmd = true ∧
      registerHooks (SettingsFile.object m1) true =
        RegisterResult.done (SettingsFile.object m1) false :=
  (registerHooks_idempotent SettingsFile.unreadable (Or.inl rfl)).1

/-- C19 (witness): on the settings of the repository's test, registerHooks leaves
"customKey" with the value "customValue". -/
theorem registerHooks_preserves_witness :
    jsonRoundTrip (Value.map customSettings) = Value.map customSettings ∧
    ∃ m1 w, registerHooks (SettingsFile.object customSettings) true =
        RegisterResult.done (SettingsFile.object m1) w ∧
      mapIndex m1 "customKey" = Value.string "customValue" :=
  ⟨rfl,
    match registerHooks_preserves customSettings rfl with
    | ⟨m1, w, h1, h2, _⟩ => ⟨m1, w, h1, h2 "customKey" (by decide)⟩⟩

/-- The accumulating loop of `strings.Join`: the text built ends with the last piece. -/
theorem intercalate_go_ends (s : String) (l : List String) (last : String) :
    ∀ acc : String, ∃ P : List Char,
      (String.intercalate.go acc s (l ++ [last])).data = P ++ last.data := by
  induction l with
  | nil =>
    intro acc
    exact ⟨acc.data ++ s.data, by simp [String.intercalate.go, String.data_append]⟩
  | cons a l ih =>
    intro acc
    obtain ⟨P, hP⟩ := ih (acc ++ s ++ a)
    exact ⟨P, by rw [List.cons_append, String.intercalate.go, hP]⟩

/-- A joined text ends with the last of the pieces joined. -/
theorem intercalate_ends (s : String) (l : List String) (last : String) :
    ∃ P : List Char, (s.intercalate (l ++ [last])).data = P ++ last.data := by
  cases l with
  | nil => exact ⟨[], by simp [String.intercalate, String.intercalate.go]⟩
  | cons a l =>
    obtain ⟨P, hP⟩ := intercalate_go_ends s l last a
    exact ⟨P, by rw [List.cons_append, String.intercalate, hP]⟩

/-- No line produced by splitting at newlines holds a newline. -/
theorem splitNewline_no_newline (cs : List Char) :
    ∀ l ∈ splitNewline cs, '\n' ∉ l := by
  induction cs with
  | nil =>
    intro l hl
    simp only [splitNewline, List.mem_singleton] at hl
    rw [hl]
    simp
  | cons c cs ih =>
    intro l hl
    simp only [splitNewline] at hl
    by_cases hc : c = '\n'
    · simp only [hc, if_true, List.mem_cons] at hl
      rcases hl with rfl | hl
      · simp
      · exact ih l hl
    · simp only [hc, if_false] at hl
      cases hs : splitNewline cs with
      | nil =>
        rw [hs] at hl
        simp only [List.mem_singleton] at hl
        rw [hl]
        simp only [List.mem_singleton]
        exact fun h => hc h.symm
      | cons l0 ls =>
        rw [hs] at hl ih
        simp only [List.mem_cons] at hl
        rcases hl with rfl | hl
        · intro hmem
          rcases List.mem_cons.mp hmem with h | h
          · exact hc h.symm
          · exact ih l0 (List.mem_cons_self l0 ls) h
        · exact ih l (List.mem_cons_of_mem l0 hl)

/-- A character of class `\s` is white space for `strings.TrimSpace`. -/
theorem isSpace_of_perlSpace (c : Char) (h : perlSpace c = true) : isSpace c = true := by
  simp only [perlSpace, Bool.or_eq_true, decide_eq_true_eq] at h
  rcases h with (((rfl | rfl) | h) | rfl) | rfl
  · decide
  · decide
  · simp [isSpace, h]
  · decide
  · decide

/-- Apart from the newline, the class `\s` is the set of space, tab, carriage return and
form feed. -/
theorem perlSpace_eq_lineSpace (c : Char) (h : c ≠ '\n') : perlSpace c = lineSpace c := by
  simp only [perlSpace, lineSpace, h, decide_False, Bool.or_false]
  cases decide (c = '\t') <;> cases decide (c = ' ') <;> cases decide (c = '\r') <;>
    cases decide (c.toNat = 0x0C) <;> rfl

/-- Two tests that agree on the elements of a list drop the same prefix of it. -/
theorem dropWhile_congr_mem (p q : Char → Bool) (l : List Char)
    (h : ∀ x ∈ l, p x = q x) : l.dropWhile p = l.dropWhile q := by
  induction l with
  | nil => rfl
  | cons a l ih =>
    have ha := h a (List.mem_cons_self a l)
    have hl := ih (fun x hx => h x (List.mem_cons_of_mem a hx))
    simp only [List.dropWhile_cons, ha, hl]

/-- A line that is non-blank under `strings.TrimSpace` holds a character outside the
class `\s`. -/
theorem nonblank_has_nonspace (l : String) (h : TrimSpace l ≠ "") :
    ∃ c ∈ l.data, perlSpace c = false := by
  by_contra hno
  push_neg at hno
  apply h
  have hall : ∀ x ∈ l.data, isSpace x = true := by
    intro x hx
    exact isSpace_of_perlSpace x (by simpa using hno x hx)
  have hd : l.data.dropWhile isSpace = [] := List.dropWhile_eq_nil_iff.mpr hall
  unfold TrimSpace
  rw [hd]
  rfl

/-- The shell-prompt pattern matches a text exactly when the first character met from its
end that is outside the class `\s` is '%' or '$'. -/
theorem shellPromptRe_matchString_head (s : String) :
    shellPromptRe.MatchString s = true ↔
      ((s.data.reverse.dropWhile perlSpace).head? = some '%' ∨
        (s.data.reverse.dropWhile perlSpace).head? = some '$') := by
  rw [shellPromptRe_matchString_split]
  have hnot : ∀ c : Char, (c = '%' ∨ c = '$') → ¬ perlSpace c = true := by
    rintro c (rfl | rfl) <;> decide
  constructor
  · rintro ⟨pre, c, cs, hs, hP, hall⟩
    have hrev : s.data.reverse = cs.reverse ++ c :: pre.reverse := by
      rw [hs]
      simp
    have hdrop : (s.data.reverse).dropWhile perlSpace = c :: pre.reverse := by
      rw [hrev, List.dropWhile_append_of_pos (fun x hx => hall x (List.mem_reverse.mp hx))]
      rw [List.dropWhile_cons_of_neg (hnot c hP)]
    rw [hdrop]
    rcases hP with rfl | rfl
    · exact Or.inl rfl
    · exact Or.inr rfl
  · intro h
    have hsplit := List.takeWhile_append_dropWhile perlSpace s.data.reverse
    cases hd : (s.data.reverse).dropWhile perlSpace with
    | nil =>
      rw [hd] at h
      simp at h
    | cons c rest =>
      rw [hd] at h hsplit
      simp only [List.head?_cons, Option.some.injEq] at h
      refine ⟨rest.reverse, c, (s.data.reverse.takeWhile perlSpace).reverse, ?_, h, ?_⟩
      · have := congrArg List.reverse hsplit
        simp only [List.reverse_append, List.reverse_cons, List.reverse_reverse] at this
        exact this.symm.trans (by simp)
      · intro x hx
        rw [List.mem_reverse] at hx
        exact List.mem_takeWhile_imp hx

/-- A capture without non-blank line gives the empty text; otherwise the text returned by
capturePaneBottom ends with the last non-blank line of the capture, a line that holds no
newline and at least one character outside the class `\s`. -/
theorem capturePaneBottom_ends (o : String) (n : Nat) (hn : 0 < n) :
    (lastNonBlankLine o = none → capturePaneBottom (some o) n = "") ∧
    (∀ last, lastNonBlankLine o = some last →
      (∃ P : List Char, (capturePaneBottom (some o) n).data = P ++ last.data) ∧
      '\n' ∉ last.data ∧ ∃ c ∈ last.data, perlSpace c = false) := by
  unfold lastNonBlankLine capturePaneBottom
  simp only
  generalize hL : (((splitNewline o.data).map String.mk).filter
    fun l => decide (TrimSpace l ≠ "")) = L
  constructor
  · intro h
    rw [List.getLast?_eq_none_iff] at h
    simp [h]
  · intro last hlast
    have hmem : last ∈ L := by
      obtain ⟨ys, hys⟩ := List.getLast?_eq_some_iff.mp hlast
      rw [hys]
      simp
    have hne : L.length ≠ 0 := by
      intro h0
      rw [List.length_eq_zero.mp h0] at hmem
      cases hmem
    have hkept : (L.drop (L.length - n)).getLast? = some last := by
      rw [List.getLast?_drop, if_neg (by omega), hlast]
    obtain ⟨ys, hys⟩ := List.getLast?_eq_some_iff.mp hkept
    rw [← hL] at hmem
    obtain ⟨hsplit, hblank⟩ := List.mem_filter.mp hmem
    refine ⟨?_, ?_, ?_⟩
    · rw [if_neg hne, hys]
      exact intercalate_ends "\n" ys last
    · obtain ⟨cs, hcs, hmk⟩ := List.mem_map.mp hsplit
      rw [← hmk]
      exact splitNewline_no_newline o.data cs hcs
    · exact nonblank_has_nonspace last (by simpa using hblank)

/-- On a successful capture isShellPrompt tests the last non-blank line only: it is true
exactly when that line exists and, stripped of trailing spaces, tabs, carriage returns
and form feeds, ends in '%' or '$'. -/
theorem isShellPrompt_some (o : String) :
    isShellPrompt (some o) = true ↔
      ∃ last, lastNonBlankLine o = some last ∧
        ((stripTrailingLineSpace last).getLast? = some '%' ∨
          (stripTrailingLineSpace last).getLast? = some '$') := by
  obtain ⟨hnone, hsome⟩ := capturePaneBottom_ends o 3 (by decide)
  unfold isShellPrompt
  cases hl : lastNonBlankLine o with
  | none =>
    rw [hnone hl]
    constructor
    · intro h
      exact absurd h (by decide)
    · rintro ⟨last, h, _⟩
      cases h
  | some last =>
    obtain ⟨⟨P, hP⟩, hnl, c, hc, hcs⟩ := hsome last hl
    rw [shellPromptRe_matchString_head, hP, List.reverse_append]
    have hne : (last.data.reverse.dropWhile perlSpace) ≠ [] := by
      intro h
      have := List.dropWhile_eq_nil_iff.mp h c (List.mem_reverse.mpr hc)
      rw [hcs] at this
      cases this
    have hdrop : (last.data.reverse ++ P.reverse).dropWhile perlSpace =
        last.data.reverse.dropWhile perlSpace ++ P.reverse := by
      rw [List.dropWhile_append]
      have : (last.data.reverse.dropWhile perlSpace).isEmpty = false := by
        cases hq : last.data.reverse.dropWhile perlSpace with
        | nil => exact absurd hq hne
        | cons a b => rfl
      rw [this]
      simp
    have hcongr : last.data.reverse.dropWhile perlSpace =
        last.data.reverse.dropWhile lineSpace := by
      apply dropWhile_congr_mem
      intro x hx
      apply perlSpace_eq_lineSpace
      rintro rfl
      exact hnl (List.mem_reverse.mp hx)
    have hhead : ((last.data.reverse ++ P.reverse).dropWhile perlSpace).head? =
        (stripTrailingLineSpace last).getLast? := by
      rw [hdrop, List.head?_append_of_ne_nil _ hne, hcongr]
      unfold stripTrailingLineSpace
      rw [List.getLast?_reverse]
    rw [hhead]
    constructor
    · intro h
      exact ⟨last, rfl, h⟩
    · rintro ⟨l2, h2, h3⟩
      cases h2
      exact h3

/-- C21: isShellPrompt, as a function of the capture result, is true if and only if the
capture succeeded, the captured text has a line that is non-blank under
strings.TrimSpace, and the last such line, with its trailing spaces, tabs, carriage
returns and form feeds removed, ends in '%' or '$'. It depends on the last non-blank line
only: a '%' or '$' ending an earlier line does not make the screen idle, and a failed or
all-blank capture is never idle. -/
theorem isShellPrompt_iff (out : Option String) :
    (isShellPrompt out = true ↔
      ∃ o last, out = some o ∧ lastNonBlankLine o = some last ∧
        ((stripTrailingLineSpace last).getLast? = some '%' ∨
          (stripTrailingLineSpace last).getLast? = some '$')) ∧
    (∀ o1 o2 : String, lastNonBlankLine o1 = lastNonBlankLine o2 →
      isShellPrompt (some o1) = isShellPrompt (some o2)) ∧
    isShellPrompt none = false ∧
    (∀ o : String, lastNonBlankLine o = none → isShellPrompt (some o) = false) ∧
    (isShellPrompt (some "some output\nuser@host ~ % \n\n\n") = true ∧
      isShellPrompt (some "build ok\r\nuser@host:~$\r\n") = true ∧
      isShellPrompt (some "user@host ~ %\nclaude is thinking...\n") = false ∧
      isShellPrompt (some "$\n100%\nstill running\n\n") = false ∧
      isShellPrompt (some "\n  \n\t\n") = false ∧
      isShellPrompt (some "") = false) := by
  have hnone : isShellPrompt none = false := by decide
  refine ⟨?_, ?_, hnone, ?_, by decide⟩
  · cases out with
    | none =>
      rw [hnone]
      constructor
      · intro h
        cases h
      · rintro ⟨o, last, h, _⟩
        cases h
    | some o =>
      rw [isShellPrompt_some]
      constructor
      · rintro ⟨last, h1, h2⟩
        exact ⟨o, last, rfl, h1, h2⟩
      · rintro ⟨o2, last, h0, h1, h2⟩
        cases h0
        exact ⟨last, h1, h2⟩
  · intro o1 o2 h
    have h1 := isShellPrompt_some o1
    have h2 := isShellPrompt_some o2
    rw [h] at h1
    cases hb : isShellPrompt (some o2) with
    | true => exact h1.mpr (h2.mp hb)
    | false =>
      cases ha : isShellPrompt (some o1) with
      | false => rfl
      | true =>
        have := h2.mpr (h1.mp ha)
        rw [hb] at this
        cases this
  · intro o h
    cases hb : isShellPrompt (some o) with
    | false => rfl
    | true =>
      obtain ⟨last, hl, _⟩ := (isShellPrompt_some o).mp hb
      rw [h] at hl
      cases hl

end Icc
